import Mathlib

/-!
# FATtools — verification of selected specification claims

Shallow embedding, in Lean 4, of the parts of the FATtools Python library
(FAT12/16/32 and exFAT engine over raw and virtual disks) needed to settle
ten claims about it: the host-disk sector cache (`disk.py`), the FAT table
accessors and allocator (`FAT.py`), the directory-table erase path
(`FAT.py`), the exFAT VBR checksum and allocation bitmap (`exFAT.py`,
`mkfat.py`), the FAT12/FAT16 formatter candidate scan (`mkfat.py`), the GPT
partition-entry-array read (`Volume.py`, `gptutils.py`), the VHD footer
validation (`vhdutils.py`) and the 8+3 short-name rendering (`FAT.py`).

Byte streams are modelled as functions `Nat → Nat` (byte value at each
absolute offset), with explicit positions where the code keeps a file
pointer.  Python's `//` and `%` on possibly-negative ints are modelled on
`Int`, where Lean's `/` and `%` agree with Python for the positive divisors
used here.  Python's bitwise `&`, `|`, `~`, `<<`, `>>` on nonnegative ints
are modelled with `Nat`'s `&&&`, `|||`, `^^^ 0xFF` (for byte complement),
`<<<`, `>>>`.
-/

namespace FATtools

/-- Write one byte into a byte map. -/
def upd (d : Nat → Nat) (p v : Nat) : Nat → Nat :=
  fun q => if q = p then v else d q

/-- Write `len` bytes `src 0 .. src (len-1)` at offset `pos` of a byte map,
as a Python `stream.write` of a buffer does. -/
def streamWrite (d : Nat → Nat) (pos : Nat) (src : Nat → Nat) (len : Nat) : Nat → Nat :=
  fun q => if pos ≤ q ∧ q < pos + len then src (q - pos) else d q

/-- `struct.unpack('<H', ...)`: little-endian 16-bit word at offset `p`. -/
def read16le (d : Nat → Nat) (p : Nat) : Nat :=
  d p + 256 * d (p + 1)

/-- `struct.unpack('<I', ...)`: little-endian 32-bit dword at offset `p`. -/
def read32le (d : Nat → Nat) (p : Nat) : Nat :=
  d p + 256 * d (p + 1) + 65536 * d (p + 2) + 16777216 * d (p + 3)

/-- Byte `k` of `struct.pack('<H', v)` (defined for `v < 2^16`, as `struct`
raises on larger values). -/
def pack16byte (v k : Nat) : Nat :=
  v / 256 ^ k % 256

/-- Byte `k` of `struct.pack('<I', v)` (defined for `v < 2^32`). -/
def pack32byte (v k : Nat) : Nat :=
  v / 256 ^ k % 256

theorem read16le_pack16 (d : Nat → Nat) (p v : Nat)
    (h0 : d p = pack16byte v 0) (h1 : d (p + 1) = pack16byte v 1)
    (hv : v < 65536) : read16le d p = v := by
  simp only [read16le, h0, h1, pack16byte]
  simp only [pow_zero, pow_one, Nat.div_one]
  omega

theorem read32le_pack32 (d : Nat → Nat) (p v : Nat)
    (h0 : d p = pack32byte v 0) (h1 : d (p + 1) = pack32byte v 1)
    (h2 : d (p + 2) = pack32byte v 2) (h3 : d (p + 3) = pack32byte v 3)
    (hv : v < 4294967296) : read32le d p = v := by
  simp only [read32le, h0, h1, h2, h3, pack32byte]
  have e2 : (256 : Nat) ^ 2 = 65536 := by norm_num
  have e3 : (256 : Nat) ^ 3 = 16777216 := by norm_num
  simp only [pow_zero, pow_one, Nat.div_one, e2, e3]
  omega

end FATtools

/-! ## C5 — exFAT VBR checksum (`exFAT.py` `boot_exfat.GetChecksum`,
`boot_exfat.checkvbr`; `mkfat.py` `exfat_mkfs` checksum-sector phase) -/

namespace ExFATvbr

open FATtools

/-- One step of `boot_exfat.GetChecksum`:
`hash = (((hash<<31) | (hash >> 1)) & 0xFFFFFFFF) + s[i]; hash &= 0xFFFFFFFF`. -/
def checksumStep (hash b : Nat) : Nat :=
  ((((hash <<< 31) ||| (hash >>> 1)) &&& 0xFFFFFFFF) + b) &&& 0xFFFFFFFF

/-- `boot_exfat.GetChecksum` over the first `len` bytes of `s`: indices
106, 107, 112 are skipped unless `upCase`. -/
def GetChecksum (s : Nat → Nat) (upCase : Bool) : Nat → Nat
  | 0 => 0
  | n + 1 =>
      let h := GetChecksum s upCase n
      if ¬upCase ∧ (n = 106 ∨ n = 107 ∨ n = 112) then h else checksumStep h (s n)

/-- The specification's step: `h ← ((h ROR32 1) + byte) mod 2^32`. -/
def rorStep (hash b : Nat) : Nat :=
  ((hash % 2) * 2 ^ 31 + hash / 2 + b) % 2 ^ 32

/-- The specification's fold, skipping offsets 106, 107, 112. -/
def rorChecksum (s : Nat → Nat) : Nat → Nat
  | 0 => 0
  | n + 1 =>
      let h := rorChecksum s n
      if n = 106 ∨ n = 107 ∨ n = 112 then h else rorStep h (s n)

theorem checksumStep_eq_rorStep (hash b : Nat) (h : hash < 2 ^ 32) :
    checksumStep hash b = rorStep hash b := by
  unfold checksumStep rorStep
  have hs : hash <<< 31 = hash * 2 ^ 31 := Nat.shiftLeft_eq hash 31
  have hr : hash >>> 1 = hash / 2 := Nat.shiftRight_eq_div_pow hash 1
  have hlt : hash / 2 < 2 ^ 31 := by omega
  have hor : (hash <<< 31) ||| (hash >>> 1) = 2 ^ 31 * hash + hash / 2 := by
    rw [hs, hr, Nat.mul_comm hash (2 ^ 31)]
    exact (Nat.mul_add_lt_is_or hlt hash).symm
  rw [hor]
  have hmask : (0xFFFFFFFF : Nat) = 2 ^ 32 - 1 := by norm_num
  rw [hmask, Nat.and_pow_two_sub_one_eq_mod, Nat.and_pow_two_sub_one_eq_mod]
  have : (2 ^ 31 * hash + hash / 2) % 2 ^ 32 = hash % 2 * 2 ^ 31 + hash / 2 := by
    have h31 : (2 : Nat) ^ 31 = 2147483648 := by norm_num
    have h32 : (2 : Nat) ^ 32 = 4294967296 := by norm_num
    rw [h31, h32] at *
    omega
  rw [this]

theorem GetChecksum_lt (s : Nat → Nat) (u : Bool) (n : Nat) :
    GetChecksum s u n < 2 ^ 32 := by
  induction n with
  | zero => simp [GetChecksum]
  | succ n ih =>
      unfold GetChecksum
      split
      · exact ih
      · unfold checksumStep
        have hmask : (0xFFFFFFFF : Nat) = 2 ^ 32 - 1 := by norm_num
        rw [hmask, Nat.and_pow_two_sub_one_eq_mod]
        exact Nat.mod_lt _ (by norm_num)

/-- The code's checksum equals the specification's ROR-fold. -/
theorem GetChecksum_eq_rorChecksum (s : Nat → Nat) (n : Nat) :
    GetChecksum s false n = rorChecksum s n := by
  induction n with
  | zero => rfl
  | succ n ih =>
      unfold GetChecksum rorChecksum
      simp only [Bool.not_false, true_and, ih]
      by_cases hc : n = 106 ∨ n = 107 ∨ n = 112
      · simp [hc]
      · simp only [hc, if_false]
        exact checksumStep_eq_rorStep _ _ (ih ▸ GetChecksum_lt s false n)

theorem GetChecksum_congr (s s' : Nat → Nat) (u : Bool) (n : Nat)
    (h : ∀ i, i < n → s i = s' i) : GetChecksum s u n = GetChecksum s' u n := by
  induction n with
  | zero => rfl
  | succ n ih =>
      unfold GetChecksum
      rw [ih (fun i hi => h i (Nat.lt_succ_of_lt hi)), h n (Nat.lt_succ_self n)]

/-- `boot_exfat.checkvbr`: reads the first 11 sectors from offset 0, then the
checksum sector; raises iff the computed checksum differs from the stored
little-endian DWORD.  Returns `true` iff the exception is raised. -/
def checkvbrRaises (d : Nat → Nat) (sector : Nat) : Bool :=
  decide (GetChecksum d false (sector * 11) ≠ read32le d (sector * 11))

/-- Checksum-sector phase of `mkfat.exfat_mkfs`: with the first 11 sectors
already written in `d`, read them back, write the checksum sector (the DWORD
repeated `sector//4` times), the backup of the 11 sectors, and the backup
checksum sector. -/
def exfatChecksumPhase (d : Nat → Nat) (sector : Nat) : Nat → Nat :=
  let ck := GetChecksum d false (sector * 11)
  let ckbytes : Nat → Nat := fun i => pack32byte ck (i % 4)
  let d1 := streamWrite d (11 * sector) ckbytes sector
  let d2 := streamWrite d1 (12 * sector) d (11 * sector)
  streamWrite d2 (23 * sector) ckbytes sector

theorem exfatChecksumPhase_low (d : Nat → Nat) (sector : Nat) (p : Nat)
    (hp : p < 11 * sector) : exfatChecksumPhase d sector p = d p := by
  unfold exfatChecksumPhase streamWrite
  simp only
  have h1 : ¬(23 * sector ≤ p ∧ p < 23 * sector + sector) := by omega
  have h2 : ¬(12 * sector ≤ p ∧ p < 12 * sector + 11 * sector) := by omega
  have h3 : ¬(11 * sector ≤ p ∧ p < 11 * sector + sector) := by omega
  simp [h1, h2, h3]

theorem exfatChecksumPhase_ck (d : Nat → Nat) (sector : Nat) (i : Nat)
    (hi : i < sector) :
    exfatChecksumPhase d sector (11 * sector + i)
      = pack32byte (GetChecksum d false (sector * 11)) (i % 4) := by
  unfold exfatChecksumPhase streamWrite
  simp only
  have h1 : ¬(23 * sector ≤ 11 * sector + i ∧
      11 * sector + i < 23 * sector + sector) := by omega
  have h2 : ¬(12 * sector ≤ 11 * sector + i ∧
      11 * sector + i < 12 * sector + 11 * sector) := by omega
  have h3 : 11 * sector ≤ 11 * sector + i ∧ 11 * sector + i < 11 * sector + sector := by
    omega
  simp [h1, h2, h3]

/-- C5: the exFAT VBR checksum law.  (1) `GetChecksum` equals the
specification's fold `h ← ((h ROR32 1) + byte) mod 2^32` skipping offsets
106, 107, 112; (2) `checkvbr` raises iff the DWORD stored in the checksum
sector differs from the checksum of the first 11 sectors; (3) a volume whose
checksum region was produced by `exfat_mkfs` has its checksum sector filled
throughout with exactly that DWORD, and (4) it passes `checkvbr`. -/
theorem c5_exfat_vbr_checksum (d : Nat → Nat) (sector n k : Nat)
    (hs4 : sector % 4 = 0) (hs : 0 < sector) (hk : k < sector / 4) :
    GetChecksum d false n = rorChecksum d n
    ∧ (checkvbrRaises d sector = true
        ↔ read32le d (sector * 11) ≠ rorChecksum d (sector * 11))
    ∧ read32le (exfatChecksumPhase d sector) (11 * sector + 4 * k)
        = GetChecksum d false (sector * 11)
    ∧ checkvbrRaises (exfatChecksumPhase d sector) sector = false := by
  have hck := GetChecksum_lt d false (sector * 11)
  have hbyte : ∀ k' j, j < 4 → 4 * k' + j < sector →
      exfatChecksumPhase d sector (11 * sector + (4 * k' + j))
        = pack32byte (GetChecksum d false (sector * 11)) j := by
    intro k' j hj4 hj
    have := exfatChecksumPhase_ck d sector (4 * k' + j) hj
    have hmod : (4 * k' + j) % 4 = j := by omega
    rwa [hmod] at this
  refine ⟨GetChecksum_eq_rorChecksum d n, ?_, ?_, ?_⟩
  · unfold checkvbrRaises
    rw [GetChecksum_eq_rorChecksum]
    simp [ne_comm]
  · refine read32le_pack32 _ _ _ ?_ ?_ ?_ ?_ hck
    · have := hbyte k 0 (by omega) (by omega)
      rw [← this]; ring_nf
    · have := hbyte k 1 (by omega) (by omega)
      rw [← this]; ring_nf
    · have := hbyte k 2 (by omega) (by omega)
      rw [← this]; ring_nf
    · have := hbyte k 3 (by omega) (by omega)
      rw [← this]; ring_nf
  · unfold checkvbrRaises
    have hlow : GetChecksum (exfatChecksumPhase d sector) false (sector * 11)
        = GetChecksum d false (sector * 11) := by
      apply GetChecksum_congr
      intro i hi
      exact exfatChecksumPhase_low d sector i (by omega)
    have hstored : read32le (exfatChecksumPhase d sector) (sector * 11)
        = GetChecksum d false (sector * 11) := by
      refine read32le_pack32 _ _ _ ?_ ?_ ?_ ?_ hck
      · have := hbyte 0 0 (by omega) (by omega)
        rw [← this]; ring_nf
      · have := hbyte 0 1 (by omega) (by omega)
        rw [← this]; ring_nf
      · have := hbyte 0 2 (by omega) (by omega)
        rw [← this]; ring_nf
      · have := hbyte 0 3 (by omega) (by omega)
        rw [← this]; ring_nf
    rw [hlow, hstored]
    simp

/-- Witness for `c5_exfat_vbr_checksum` at a concrete 4-byte sector and the
all-zero stream. -/
theorem c5_exfat_vbr_checksum_witness :
    (4 : Nat) % 4 = 0 ∧ (0 : Nat) < 4 ∧ (0 : Nat) < 4 / 4 ∧
    (GetChecksum (fun _ => 0) false 3 = rorChecksum (fun _ => 0) 3
    ∧ (checkvbrRaises (fun _ => 0) 4 = true
        ↔ read32le (fun _ => 0) (4 * 11) ≠ rorChecksum (fun _ => 0) (4 * 11))
    ∧ read32le (exfatChecksumPhase (fun _ => 0) 4) (11 * 4 + 4 * 0)
        = GetChecksum (fun _ => 0) false (4 * 11)
    ∧ checkvbrRaises (exfatChecksumPhase (fun _ => 0) 4) 4 = false) :=
  ⟨rfl, by norm_num, by norm_num,
    c5_exfat_vbr_checksum (fun _ => 0) 4 3 0 rfl (by norm_num) (by norm_num)⟩

end ExFATvbr

/-! ## C6 — FAT12/FAT16 formatter cluster-count limits (`mkfat.py`
`fat12_mkfs` / `fat16_mkfs` candidate scans).  Python ints are modelled on
`Int`; for the positive divisors used here Lean's `/` and `%` agree with
Python's `//` and `%`. -/

namespace Mkfat

/-- `fat12_mkfs`: `fat_size = ((12*(clusters+2))//8+sector-1)//sector * sector`. -/
def fat12_fat_size (sector clusters : Int) : Int :=
  ((12 * (clusters + 2)) / 8 + sector - 1) / sector * sector

/-- `fat12_mkfs`: `required_size = cluster_size*clusters + fat_copies*fat_size
+ reserved_size`. -/
def fat12_required (cluster_size sector reserved fat_copies clusters : Int) : Int :=
  cluster_size * clusters + fat_copies * fat12_fat_size sector clusters + reserved

/-- `fat12_mkfs`: the `while required_size > size: clusters -= 2` loop, with
fuel (the Python loop may not terminate on degenerate parameters; running
out of fuel yields no candidate). -/
def fat12_adjust (size cluster_size sector reserved fat_copies : Int) :
    Nat → Int → Option Int
  | 0, _ => none
  | fuel + 1, clusters =>
      if fat12_required cluster_size sector reserved fat_copies clusters > size then
        fat12_adjust size cluster_size sector reserved fat_copies fuel (clusters - 2)
      else
        some clusters

/-- `if clusters%2: clusters-=1` — get always an even number. -/
def evenize (x : Int) : Int :=
  if x % 2 ≠ 0 then x - 1 else x

/-- Tail of one `fat12_mkfs` candidate iteration, from the evened cluster
count: shrink while the layout overflows, then accept unless
`clusters > 4085`. -/
def fat12_accept (size cluster_size sector reserved fat_copies clusters1 : Int) :
    Option (Int × Int) :=
  match fat12_adjust size cluster_size sector reserved fat_copies
      (clusters1.toNat + 1) clusters1 with
  | none => none
  | some c => if c > 4085 then none else some (cluster_size, c)

/-- One iteration of the `fat12_mkfs` candidate loop for cluster-size
exponent `i`. -/
def fat12_candidate (size sector reserved fat_copies : Int) (i : Nat) :
    Option (Int × Int) :=
  fat12_accept size (2 ^ i) sector reserved fat_copies
    (evenize ((size - reserved) / 2 ^ i))

/-- The `allowed` set built by `fat12_mkfs` (cluster size, cluster count),
for cluster-size exponents 9..16; `reserved_size` already includes the
`root_entries*32` bytes added before the loop. -/
def fat12_allowed (size sector reserved_size0 fat_copies root_entries : Int) :
    List (Int × Int) :=
  let reserved := reserved_size0 + root_entries * 32
  (List.range 8).filterMap
    (fun j => fat12_candidate size sector reserved fat_copies (9 + j))

/-- `fat16_mkfs`: `fat_size = (2*(clusters+2)+sector-1)//sector * sector`. -/
def fat16_fat_size (sector clusters : Int) : Int :=
  (2 * (clusters + 2) + sector - 1) / sector * sector

def fat16_required (cluster_size sector reserved fat_copies clusters : Int) : Int :=
  cluster_size * clusters + fat_copies * fat16_fat_size sector clusters + reserved

def fat16_adjust (size cluster_size sector reserved fat_copies : Int) :
    Nat → Int → Option Int
  | 0, _ => none
  | fuel + 1, clusters =>
      if fat16_required cluster_size sector reserved fat_copies clusters > size then
        fat16_adjust size cluster_size sector reserved fat_copies fuel (clusters - 2)
      else
        some clusters

/-- Tail of one `fat16_mkfs` candidate iteration: accept unless
`clusters < 4086 or clusters > 65525`. -/
def fat16_accept (size cluster_size sector reserved fat_copies clusters1 : Int) :
    Option (Int × Int) :=
  match fat16_adjust size cluster_size sector reserved fat_copies
      (clusters1.toNat + 1) clusters1 with
  | none => none
  | some c => if c < 4086 ∨ c > 65525 then none else some (cluster_size, c)

/-- One iteration of the `fat16_mkfs` candidate loop. -/
def fat16_candidate (size sector reserved fat_copies : Int) (i : Nat) :
    Option (Int × Int) :=
  fat16_accept size (2 ^ i) sector reserved fat_copies
    (evenize ((size - reserved) / 2 ^ i))

/-- The `allowed` set built by `fat16_mkfs`. -/
def fat16_allowed (size sector reserved_size0 fat_copies root_entries : Int) :
    List (Int × Int) :=
  let reserved := reserved_size0 + root_entries * 32
  (List.range 8).filterMap
    (fun j => fat16_candidate size sector reserved fat_copies (9 + j))

theorem fat12_adjust_even (size cluster_size sector reserved fat_copies : Int) :
    ∀ (fuel : Nat) (clusters c : Int), clusters % 2 = 0 →
      fat12_adjust size cluster_size sector reserved fat_copies fuel clusters
        = some c → c % 2 = 0 := by
  intro fuel
  induction fuel with
  | zero => intro clusters c _ h; simp [fat12_adjust] at h
  | succ fuel ih =>
      intro clusters c he h
      unfold fat12_adjust at h
      split at h
      · exact ih (clusters - 2) c (by omega) h
      · cases h; exact he

theorem fat16_adjust_even (size cluster_size sector reserved fat_copies : Int) :
    ∀ (fuel : Nat) (clusters c : Int), clusters % 2 = 0 →
      fat16_adjust size cluster_size sector reserved fat_copies fuel clusters
        = some c → c % 2 = 0 := by
  intro fuel
  induction fuel with
  | zero => intro clusters c _ h; simp [fat16_adjust] at h
  | succ fuel ih =>
      intro clusters c he h
      unfold fat16_adjust at h
      split at h
      · exact ih (clusters - 2) c (by omega) h
      · cases h; exact he

theorem evenize_even (x : Int) : evenize x % 2 = 0 := by
  unfold evenize; split <;> omega

theorem fat12_accept_bound (size cluster_size sector reserved fat_copies : Int)
    (clusters1 cs c : Int) (he1 : clusters1 % 2 = 0)
    (h : fat12_accept size cluster_size sector reserved fat_copies clusters1
        = some (cs, c)) : c ≤ 4084 := by
  unfold fat12_accept at h
  revert h
  cases hadj : fat12_adjust size cluster_size sector reserved fat_copies
      (clusters1.toNat + 1) clusters1 with
  | none => intro h; simp at h
  | some c' =>
      intro h
      have he : c' % 2 = 0 :=
        fat12_adjust_even size cluster_size sector reserved fat_copies _ _ _ he1 hadj
      by_cases hgt : c' > 4085
      · simp [hgt] at h
      · simp [hgt] at h
        omega

theorem fat16_accept_bound (size cluster_size sector reserved fat_copies : Int)
    (clusters1 cs c : Int) (he1 : clusters1 % 2 = 0)
    (h : fat16_accept size cluster_size sector reserved fat_copies clusters1
        = some (cs, c)) : 4085 ≤ c ∧ c ≤ 65524 := by
  unfold fat16_accept at h
  revert h
  cases hadj : fat16_adjust size cluster_size sector reserved fat_copies
      (clusters1.toNat + 1) clusters1 with
  | none => intro h; simp at h
  | some c' =>
      intro h
      have he : c' % 2 = 0 :=
        fat16_adjust_even size cluster_size sector reserved fat_copies _ _ _ he1 hadj
      by_cases hout : c' < 4086 ∨ c' > 65525
      · simp [hout] at h
      · simp [hout] at h
        omega

theorem fat12_candidate_bound (size sector reserved fat_copies : Int) (i : Nat)
    (cs c : Int)
    (h : fat12_candidate size sector reserved fat_copies i = some (cs, c)) :
    c ≤ 4084 :=
  fat12_accept_bound _ _ _ _ _ _ _ _ (evenize_even _) h

theorem fat16_candidate_bound (size sector reserved fat_copies : Int) (i : Nat)
    (cs c : Int)
    (h : fat16_candidate size sector reserved fat_copies i = some (cs, c)) :
    4085 ≤ c ∧ c ≤ 65524 :=
  fat16_accept_bound _ _ _ _ _ _ _ _ (evenize_even _) h

/-- C6: every layout placed in `allowed` by `fat12_mkfs` has at most 4084
clusters, and every layout placed in `allowed` by `fat16_mkfs` has a cluster
count in `[4085, 65524]` (so counts outside the variant's legal range are
rejected: the cluster counts kept are always even, and the acceptance guards
discard everything above 4085, respectively outside `[4086, 65525]`). -/
theorem c6_formatter_cluster_limits
    (size12 sector12 res12 fc12 re12 size16 sector16 res16 fc16 re16 : Int)
    (cs12 c12 cs16 c16 : Int)
    (h12 : (cs12, c12) ∈ fat12_allowed size12 sector12 res12 fc12 re12)
    (h16 : (cs16, c16) ∈ fat16_allowed size16 sector16 res16 fc16 re16) :
    c12 ≤ 4084 ∧ 4085 ≤ c16 ∧ c16 ≤ 65524 := by
  unfold fat12_allowed at h12
  unfold fat16_allowed at h16
  rw [List.mem_filterMap] at h12 h16
  obtain ⟨j12, _, hj12⟩ := h12
  obtain ⟨j16, _, hj16⟩ := h16
  refine ⟨fat12_candidate_bound _ _ _ _ _ _ _ hj12, ?_, ?_⟩
  · exact (fat16_candidate_bound _ _ _ _ _ _ _ hj16).1
  · exact (fat16_candidate_bound _ _ _ _ _ _ _ hj16).2

set_option maxRecDepth 4096 in
/-- Witness for `c6_formatter_cluster_limits`: a 1.44 MiB floppy (default
FAT12 parameters) and a 64 MiB disk (default FAT16 parameters). -/
theorem c6_formatter_cluster_limits_witness :
    ((512 : Int), (2846 : Int)) ∈ fat12_allowed 1474560 512 512 2 224
    ∧ ((1024 : Int), (65264 : Int)) ∈ fat16_allowed 67108864 512 512 2 512
    ∧ ((2846 : Int) ≤ 4084 ∧ (4085 : Int) ≤ 65264 ∧ (65264 : Int) ≤ 65524) :=
  ⟨by decide, by decide,
    c6_formatter_cluster_limits 1474560 512 512 2 224 67108864 512 512 2 512
      512 2846 1024 65264 (by decide) (by decide)⟩

end Mkfat

/-! ## C7 — GPT partition-entry-array read size (`Volume.py` `vopen`,
`gptutils.py` `GPT.parse`).  `vopen` reads
`gpt.dwNumberOfPartitionEntries * gpt.dwNumberOfPartitionEntries` bytes from
`u64PartitionEntryLBA` and hands them to `GPT.parse`, which slices
`dwNumberOfPartitionEntries` entries of `dwSizeOfPartitionEntry` bytes each
(Python slices truncate silently past the end of the buffer). -/

namespace GPTread

/-- Number of bytes `vopen` reads for the GPT partition entry array:
`d.read(gpt.dwNumberOfPartitionEntries * gpt.dwNumberOfPartitionEntries)`. -/
def gptArrayReadLen (numEntries : Nat) : Nat :=
  numEntries * numEntries

/-- The byte count required by the claim (and by `GPT.parse` to decode all
entries): `dwNumberOfPartitionEntries × dwSizeOfPartitionEntry`. -/
def gptArrayRequiredLen (numEntries sizeEntry : Nat) : Nat :=
  numEntries * sizeEntry

/-- `GPT.parse`: for `i` in `range(dwNumberOfPartitionEntries)`, take the
slice `s[i*dwSizeOfPartitionEntry : (i+1)*dwSizeOfPartitionEntry]`. -/
def GPT_parse (s : List Nat) (numEntries sizeEntry : Nat) : List (List Nat) :=
  (List.range numEntries).map (fun i => (s.drop (i * sizeEntry)).take sizeEntry)

set_option maxRecDepth 8192 in
/-- C7 fails on the code: for a GPT header with 4 entries of 128 bytes,
`vopen` reads `4 × 4 = 16` bytes where `4 × 128 = 512` are required, so
`GPT.parse` decodes one truncated entry and three empty ones instead of four
128-byte entries. -/
theorem c7_gpt_read_len_bug :
    gptArrayReadLen 4 = 16
    ∧ gptArrayRequiredLen 4 128 = 512
    ∧ gptArrayReadLen 4 ≠ gptArrayRequiredLen 4 128
    ∧ (GPT_parse (List.replicate (gptArrayReadLen 4) 0) 4 128).map List.length
        = [16, 0, 0, 0]
    ∧ (GPT_parse (List.replicate (gptArrayRequiredLen 4 128) 0) 4 128).map
        List.length = [128, 128, 128, 128] := by
  refine ⟨rfl, rfl, by decide, by decide, ?_⟩
  have hdt : ∀ i : Nat, ((List.replicate 512 (0 : Nat)).drop (i * 128)).take 128
      = List.replicate (min 128 (512 - i * 128)) 0 := by
    intro i
    rw [List.drop_replicate, List.take_replicate]
  simp only [GPT_parse, gptArrayRequiredLen]
  norm_num [List.range_succ, hdt]

end GPTread

/-! ## C8 — VHD footer checksum at open (`vhdutils.py` `Footer.crc`,
`Footer.isvalid`, `Image.__init__`). -/

namespace VHD

/-- `struct.unpack('>I', ...)`: big-endian 32-bit dword at offset `p`. -/
def read32be (d : Nat → Nat) (p : Nat) : Nat :=
  16777216 * d p + 65536 * d (p + 1) + 256 * d (p + 2) + d (p + 3)

/-- Sum of the first `len` bytes of `s` (the loop of `mk_crc`). -/
def sumBytes (s : Nat → Nat) : Nat → Nat
  | 0 => 0
  | n + 1 => sumBytes s n + s n

/-- `mk_crc` packs `struct.pack('>i', ~crc)`; for a byte sum `< 2^31` the
unsigned big-endian value of those four bytes is `2^32 - 1 - crc` (one's
complement). -/
def mk_crc_val (s : Nat → Nat) (len : Nat) : Nat :=
  2 ^ 32 - 1 - sumBytes s len % 2 ^ 32

/-- `Footer.crc`: `mk_crc` over the 512-byte footer with the checksum field
(offsets 64..67) zeroed, as a '>I' value. -/
def footerCrc (buf : Nat → Nat) : Nat :=
  mk_crc_val (fun i => if 64 ≤ i ∧ i < 68 then 0 else buf i) 512

/-- `sCookie` ('8s' at offset 0). -/
def footerCookie (buf : Nat → Nat) : List Nat :=
  [buf 0, buf 1, buf 2, buf 3, buf 4, buf 5, buf 6, buf 7]

/-- `dwCreatorHost` ('4s' at offset 0x24). -/
def footerCreator (buf : Nat → Nat) : List Nat :=
  [buf 0x24, buf 0x25, buf 0x26, buf 0x27]

/-- `b'conectix'`. -/
def conectix : List Nat := [99, 111, 110, 101, 99, 116, 105, 120]

/-- `dwChecksum` ('>I' at offset 0x40). -/
def footerStoredChecksum (buf : Nat → Nat) : Nat :=
  read32be buf 64

/-- `Footer.isvalid`: checks the cookie and the creator host
(`b'Mac'` has 3 bytes, so the comparison with the 4-byte field can only
match `b'Wi2k'`); a checksum mismatch is computed but only logged under
debug, after which the method still returns 1. -/
def footerIsValid (buf : Nat → Nat) : Nat :=
  if ¬(footerCookie buf = conectix ∧
      (footerCreator buf = [87, 105, 50, 107] ∨ footerCreator buf = [77, 97, 99]))
  then 0
  else
    let _checksumMismatch := footerStoredChecksum buf ≠ footerCrc buf
    1

/-- The footer check of `Image.__init__`:
`if not self.footer.isvalid(): raise`.  `true` iff the open fails there. -/
def imageOpenFooterRejects (buf : Nat → Nat) : Bool :=
  decide (footerIsValid buf = 0)

/-- A concrete 512-byte footer: valid cookie `conectix`, creator `Wi2k`, all
other bytes zero, so the stored checksum 0 differs from the one's-complement
sum `2^32 - 1 - 1210`. -/
def badChecksumFooter : Nat → Nat := fun i =>
  if i < 8 then conectix.getD i 0
  else if 0x24 ≤ i ∧ i < 0x28 then [87, 105, 50, 107].getD (i - 0x24) 0
  else 0

set_option maxRecDepth 4096 in
/-- C8 as stated fails on the code: this footer has a well-formed cookie and
creator but a stored checksum differing from the one's-complement sum, yet
`Footer.isvalid` returns 1 (not 0) and the footer check in `Image.__init__`
does not reject it. -/
theorem c8_footer_checksum_counterexample :
    footerStoredChecksum badChecksumFooter ≠ footerCrc badChecksumFooter
    ∧ footerIsValid badChecksumFooter = 1
    ∧ imageOpenFooterRejects badChecksumFooter = false := by
  refine ⟨?_, by decide, by decide⟩
  decide

/-- C8 amended: `Footer.isvalid` enforces only the cookie and creator-host
fields; a checksum mismatch is merely logged, `isvalid` returns 1 and the
open proceeds past the footer check. -/
theorem c8_footer_checksum_not_enforced (buf : Nat → Nat)
    (h : footerCookie buf = conectix ∧
      (footerCreator buf = [87, 105, 50, 107] ∨ footerCreator buf = [77, 97, 99])) :
    footerIsValid buf = 1 ∧ imageOpenFooterRejects buf = false := by
  have h1 : footerIsValid buf = 1 := by
    unfold footerIsValid
    simp [h]
  refine ⟨h1, ?_⟩
  unfold imageOpenFooterRejects
  simp [h1]

set_option maxRecDepth 4096 in
/-- Witness for `c8_footer_checksum_not_enforced` at the concrete footer with
a wrong stored checksum. -/
theorem c8_footer_checksum_not_enforced_witness :
    (footerCookie badChecksumFooter = conectix ∧
      (footerCreator badChecksumFooter = [87, 105, 50, 107] ∨
        footerCreator badChecksumFooter = [77, 97, 99]))
    ∧ (footerIsValid badChecksumFooter = 1
        ∧ imageOpenFooterRejects badChecksumFooter = false) :=
  ⟨by decide, c8_footer_checksum_not_enforced badChecksumFooter (by decide)⟩

end VHD

/-! ## C9 — 8+3 short-name case-rendering flags (`FAT.py`
`FATDirentry.GetShortName` / `GenRawShortName`). -/

namespace ShortName

/-- Python `str.rstrip()` on the space-padded name fields. -/
def rstripSpaces (s : List Char) : List Char :=
  (s.reverse.dropWhile (· = ' ')).reverse

/-- `FATDirentry.GetShortName`: basename lowered when `chFlags & 0x8`,
extension lowered when `chFlags & 0x16` (the mask the source uses). -/
def GetShortName (shortname : List Char) (chFlags : Nat) : List Char :=
  let name := rstripSpaces (shortname.take 8)
  let name := if chFlags &&& 0x8 ≠ 0 then name.map Char.toLower else name
  let ext := rstripSpaces (shortname.drop 8)
  let ext := if chFlags &&& 0x16 ≠ 0 then ext.map Char.toLower else ext
  if ext = [] then name else name ++ ('.' :: ext)

/-- The rendering the claim requires: the extension is lowered iff bit 4
(value 0x10) of the flags byte is set. -/
def GetShortNameSpec (shortname : List Char) (chFlags : Nat) : List Char :=
  let name := rstripSpaces (shortname.take 8)
  let name := if chFlags &&& 0x8 ≠ 0 then name.map Char.toLower else name
  let ext := rstripSpaces (shortname.drop 8)
  let ext := if chFlags &&& 0x10 ≠ 0 then ext.map Char.toLower else ext
  if ext = [] then name else name ++ ('.' :: ext)

/-- The 11-byte stored short name `README  TXT`. -/
def rawName : List Char := "README  TXT".data

/-- C9 fails on the code: `chFlags & 0x16` also fires on bits 1 (0x02) and
2 (0x04), so a flags byte of 0x02 or 0x04 — bit 4 clear — already lowercases
the extension, while the claim requires lowercase iff bit 4 (0x10) is set
and no other bit to matter.  With bit 4 alone, or with no flag, code and
claim agree. -/
theorem c9_shortname_flag_mask_bug :
    GetShortName rawName 2 ≠ GetShortNameSpec rawName 2
    ∧ GetShortName rawName 2 = "README.txt".data
    ∧ GetShortNameSpec rawName 2 = "README.TXT".data
    ∧ GetShortName rawName 4 = "README.txt".data
    ∧ GetShortName rawName 16 = "README.txt".data
    ∧ GetShortName rawName 0 = "README.TXT".data := by
  refine ⟨by decide, by decide, by decide, by decide, by decide, by decide⟩

end ShortName

/-! ## C4 — erase of a non-empty directory (`FAT.py` `Dirtable.erase`).

The emptiness test in the source is

    it = self.opendir(e.Name()).iterator()
    next(it); next(it)
    if next in it: ... return 0

`next in it` asks whether the Python *builtin function* `next` occurs among
the remaining items yielded by the iterator; the items are directory-entry
objects, which compare unequal to the builtin, so the test is always false
and the erase always proceeds. -/

namespace Erase

open FATtools

/-- A Python value that can take part in the `in` test of `erase`: a
directory-entry object (identity only) or the builtin function `next`. -/
inductive PyVal where
  | direntry (id : Nat)
  | builtinNext
deriving DecidableEq

/-- The guard of `Dirtable.erase` for a directory: after consuming `.` and
`..`, Python evaluates `next in it` on the remaining entries. `true` means
`erase` returns 0. -/
def eraseGuardBlocks (entries : List PyVal) : Bool :=
  decide (PyVal.builtinNext ∈ entries.drop 2)

/-- `Dirtable.erase` on an entry `e` (buffer contents `e_buf` of `e_bufLen`
bytes at slot offset `e_pos`, start cluster `e_start`): if the directory
guard blocks, return 0 and change nothing; otherwise stamp `0xE5` on the
first byte of every 32-byte slot of the group, write the group back, return
the slots to the free-slots map, free the cluster chain, and return 1.
(The source also zeroes the entry's start/size fields and drops it from the
`names` cache on the erase path.) -/
def dirtableErase (e_isDir : Bool) (children : List PyVal)
    (e_pos e_bufLen e_start : Nat) (e_buf : Nat → Nat) (stream : Nat → Nat)
    (slots : List (Nat × Nat)) (freed : List Nat) :
    Nat × (Nat → Nat) × List (Nat × Nat) × List Nat :=
  if e_isDir ∧ eraseGuardBlocks children then
    (0, stream, slots, freed)
  else
    let buf' : Nat → Nat := fun i => if i % 32 = 0 then 0xE5 else e_buf i
    let stream' := streamWrite stream e_pos buf' e_bufLen
    let slots' := slots ++ [(e_pos, e_bufLen / 32)]
    let freed' := if e_start ≠ 0 then freed ++ [e_start] else freed
    (1, stream', slots', freed')

/-- The iterator of a directory holding `.`, `..` and one real entry. -/
def threeChildren : List PyVal :=
  [PyVal.direntry 0, PyVal.direntry 1, PyVal.direntry 2]

theorem eraseGuard_never_blocks (ids : List Nat) :
    eraseGuardBlocks (ids.map PyVal.direntry) = false := by
  unfold eraseGuardBlocks
  simp only [decide_eq_false_iff_not]
  intro hmem
  have hm := List.mem_of_mem_drop hmem
  simp [List.mem_map] at hm

/-- C4 fails on the code: erasing a directory that still contains a real
entry besides `.` and `..` returns 1 (not 0), overwrites its slot group with
the 0xE5 erased marker and frees its cluster chain, because the guard
`next in it` can never be true for any directory contents. -/
theorem c4_erase_nonempty_dir_bug :
    (dirtableErase true threeChildren 64 32 5 (fun _ => 0) (fun _ => 0) [] []).1 = 1
    ∧ (dirtableErase true threeChildren 64 32 5 (fun _ => 0) (fun _ => 0) [] []).2.1 64
        = 0xE5
    ∧ (dirtableErase true threeChildren 64 32 5 (fun _ => 0) (fun _ => 0) [] []).2.2.1
        = [(64, 1)]
    ∧ (dirtableErase true threeChildren 64 32 5 (fun _ => 0) (fun _ => 0) [] []).2.2.2
        = [5]
    ∧ ∀ ids : List Nat, eraseGuardBlocks (ids.map PyVal.direntry) = false :=
  ⟨by decide, by decide, by decide, by decide, eraseGuard_never_blocks⟩

end Erase

/-! ## C1 — host-disk sector cache (`disk.py` `disk.seek`, `disk.read`,
`disk.write`, `disk.cache_retrieve`, `disk.cache_readinto`,
`disk.cache_flush`).

The backing stream (`BytesIO` ramdisk) is a byte map with a file pointer;
the 1 MiB cache pool is a byte map; `cache_table`, `cache_tableR` and
`cache_dirties` are insertion-ordered association lists as Python dicts
are.  `self.buf` is a memoryview into the pool on the cached paths; each
method installs it before use, so it is passed locally here.  The
hit/miss/extra counters only feed debug logging and are omitted. -/

namespace DiskCache

/-- The backing file (ramdisk `BytesIO`). -/
structure PyFile where
  data : Nat → Nat
  pos : Nat
  size : Nat

/-- `_file.write(s)` at the current file position. -/
def fileWrite (f : PyFile) (s : List Nat) : PyFile :=
  { data := fun q => if f.pos ≤ q ∧ q < f.pos + s.length then s.getD (q - f.pos) 0
      else f.data q
    pos := f.pos + s.length
    size := max f.size (f.pos + s.length) }

/-- `d.get(k)` on a Nat-keyed dict. -/
def nGet (m : List (Nat × Nat)) (k : Nat) : Option Nat :=
  (m.find? (fun p => p.1 = k)).map (·.2)

/-- `d[k] = v` on a Nat-keyed dict. -/
def nSet (m : List (Nat × Nat)) (k v : Nat) : List (Nat × Nat) :=
  if m.any (fun p => p.1 = k) then m.map (fun p => if p.1 = k then (k, v) else p)
  else m ++ [(k, v)]

/-- `del d[k]` on a Nat-keyed dict. -/
def nDel (m : List (Nat × Nat)) (k : Nat) : List (Nat × Nat) :=
  m.filter (fun p => p.1 ≠ k)

/-- `k in d` for the dirty-sector dict (values are all `True`). -/
def dIn (m : List Nat) (k : Nat) : Bool := m.contains k

/-- `d[k] = True` for the dirty-sector dict. -/
def dAdd (m : List Nat) (k : Nat) : List Nat := if m.contains k then m else m ++ [k]

/-- `del d[k]` for the dirty-sector dict. -/
def dDel (m : List Nat) (k : Nat) : List Nat := m.filter (fun x => x ≠ k)

/-- State of a `disk` object. -/
structure Disk where
  pos : Nat
  si : Nat
  so : Nat
  lastsi : Nat
  asize : Nat
  blocksize : Nat
  size : Nat
  cache : Nat → Nat
  cacheIndex : Nat
  cacheTable : List (Nat × Nat)
  cacheTableR : List (Nat × Nat)
  cacheDirties : List Nat
  file : PyFile

/-- The bytes `g start .. g (start+n-1)` of a byte map. -/
def sliceOf (g : Nat → Nat) (start n : Nat) : List Nat :=
  (List.range n).map (fun k => g (start + k))

/-- Overlay a list of bytes on a byte map at `start`
(slice assignment / `readinto` a memoryview). -/
def overlay (g : Nat → Nat) (start : Nat) (s : List Nat) : Nat → Nat :=
  fun q => if start ≤ q ∧ q < start + s.length then s.getD (q - start) 0 else g q

/-- `disk.seek(offset)` (absolute): clamp to `[0, size]`, derive the sector
index and offset, seek the backing file to the sector start. -/
def dseek (d : Disk) (offset : Nat) : Disk :=
  let pos := if offset > d.size then d.size else offset
  let si := pos / d.blocksize
  let so := pos % d.blocksize
  { d with pos := pos, si := si, so := so,
           file := { d.file with pos := si * d.blocksize } }

/-- `disk.cache_flush(sector)`: commit one dirty sector from the pool. -/
def cacheFlushOne (d : Disk) (sector : Nat) : Disk :=
  let f := { d.file with pos := sector * d.blocksize }
  match nGet d.cacheTable sector with
  | some i =>
      { d with file := fileWrite f (sliceOf d.cache i d.blocksize)
               cacheDirties := dDel d.cacheDirties sector }
  | none => { d with file := f }

/-- `disk.cache_flush()`: commit all dirty sectors in ascending order, then
reset the cache tables (also when nothing is dirty). -/
def cacheFlushAll (d : Disk) : Disk :=
  if d.cacheDirties.isEmpty then
    { d with cacheTable := [], cacheTableR := [] }
  else
    let d := (d.cacheDirties.mergeSort (fun a b => a ≤ b)).foldl
      (fun d sec =>
        let f := { d.file with pos := sec * d.blocksize }
        match nGet d.cacheTable sec with
        | some i => { d with file := fileWrite f (sliceOf d.cache i d.blocksize) }
        | none => { d with file := f }) d
    { d with cacheDirties := [], cacheTable := [], cacheTableR := [] }

/-- Multi-sector arm of `disk.cache_retrieve`: flush any dirty sector in
the span (re-seeking after each flush) and report a miss. -/
def cacheRetrieveMulti (d : Disk) : Disk :=
  (List.range (d.asize / d.blocksize)).foldl
    (fun d i =>
      match nGet d.cacheTable (d.si + i) with
      | none => d
      | some _ =>
          if dIn d.cacheDirties (d.si + i) then
            dseek (cacheFlushOne d (d.si + i)) d.pos
          else d) d

/-- `disk.cache_readinto`: flush and restart the pool when it is full, load
one sector at the next pool slot, map it in both tables (unlinking a
previous sector mapped at the same slot).  Returns the pool offset. -/
def cacheReadinto (d : Disk) : Nat × Disk :=
  let d :=
    if d.cacheIndex + d.asize > 1048576 then
      dseek { cacheFlushAll d with cacheIndex := 0 } d.pos
    else d
  let pos := d.cacheIndex
  let loaded := sliceOf d.file.data d.file.pos d.asize
  let d := { d with
    cache := overlay d.cache pos loaded
    file := { d.file with pos := d.file.pos + d.asize }
    cacheIndex := d.cacheIndex + d.asize }
  let d :=
    match nGet d.cacheTableR pos with
    | some old => { d with cacheTable := nDel d.cacheTable old }
    | none => d
  (pos, { d with cacheTable := nSet d.cacheTable d.si pos
                 cacheTableR := nSet d.cacheTableR pos d.si })

/-- Single-sector hit test of `disk.cache_retrieve` followed by
`cache_readinto` on a miss, as the cached read/write paths do
(`if not self.cache_retrieve(): self.cache_readinto()`).  Returns the pool
offset of `self.buf`. -/
def slotFor (d : Disk) : Nat × Disk :=
  match nGet d.cacheTable d.si with
  | some i => (i, d)
  | none => cacheReadinto d

/-- `disk.read(size)` for a nonnegative size. -/
def dread (d : Disk) (size0 : Nat) : List Nat × Disk :=
  let d := dseek d d.pos
  let size := if d.size ≠ 0 ∧ d.pos + size0 > d.size then d.size - d.pos else size0
  let se := (d.pos + size) / d.blocksize +
    (if (d.pos + size) % d.blocksize ≠ 0 then 1 else 0)
  let d := { d with asize := (se - d.si) * d.blocksize }
  if d.asize = d.blocksize then
    match nGet d.cacheTable d.si with
    | some i =>
        let out := sliceOf d.cache (i + d.so) size
        (out, { d with lastsi := d.si, pos := d.pos + size })
    | none =>
        let pr := cacheReadinto d
        let out := sliceOf pr.2.cache (pr.1 + pr.2.so) size
        (out, { pr.2 with lastsi := pr.2.si, pos := pr.2.pos + size })
  else
    let d := cacheRetrieveMulti d
    if d.asize > d.blocksize then
      let buf := sliceOf d.file.data (d.si * d.blocksize) d.asize
      let d := { d with
        file := { d.file with pos := d.si * d.blocksize + d.asize }
        si := d.si + d.asize / d.blocksize
        pos := d.pos + size }
      ((buf.drop d.so).take size, d)
    else
      let pr := cacheReadinto d
      let out := sliceOf pr.2.cache (pr.1 + pr.2.so) size
      (out, { pr.2 with lastsi := pr.2.si, pos := pr.2.pos + size })

/-- `disk.write(s)`: complete a partial leading sector through the cache,
bypass-write whole sectors directly (invalidating overlapping cached
sectors), and put a partial trailing run back through the cache. -/
def dwrite (d : Disk) (s : List Nat) : Disk :=
  if s.length = 0 then d
  else
    let ds :=
      if d.so ≠ 0 then
        let j := min (d.blocksize - d.so) s.length
        let d := { d with asize := 512 }
        let pr := slotFor d
        let i := pr.1
        let d := pr.2
        let d := { d with cache := overlay d.cache (i + d.so) (s.take j)
                          cacheDirties := dAdd d.cacheDirties d.si
                          pos := d.pos + j }
        (dseek d d.pos, s.drop j)
      else (d, s)
    let d := ds.1
    let s := ds.2
    let ds :=
      if s.length > d.blocksize then
        let full_blocks := s.length / 512
        let d := (List.range full_blocks).foldl
          (fun d k =>
            let sec := d.si + k
            match nGet d.cacheTable sec with
            | some ri =>
                let d := { d with cacheTableR := nDel d.cacheTableR ri
                                  cacheTable := nDel d.cacheTable sec }
                if dIn d.cacheDirties sec then
                  { d with cacheDirties := dDel d.cacheDirties sec }
                else d
            | none => d) d
        let d := { d with file := fileWrite d.file (s.take (full_blocks * 512))
                          pos := d.pos + full_blocks * 512 }
        (dseek d d.pos, s.drop (full_blocks * 512))
      else (d, s)
    let d := ds.1
    let s := ds.2
    let d :=
      if s.length ≠ 0 then
        let d := { d with asize := 512 }
        let pr := slotFor d
        let i := pr.1
        let d := pr.2
        { d with cache := overlay d.cache (i + d.so) s
                 cacheDirties := dAdd d.cacheDirties d.si
                 pos := d.pos + s.length }
      else d
    let d := dseek d d.pos
    { d with lastsi := d.si }

/-- A fresh ramdisk `disk` over `data` of `size` bytes. -/
def mkDisk (data : Nat → Nat) (size : Nat) : Disk :=
  { pos := 0, si := 0, so := 0, lastsi := 0, asize := 0, blocksize := 512
    size := size, cache := fun _ => 0, cacheIndex := 0, cacheTable := []
    cacheTableR := [], cacheDirties := []
    file := { data := data, pos := 0, size := size } }

/-- One user-visible operation on the disk object. -/
inductive DiskOp where
  | seek (offset : Nat)
  | read (n : Nat)
  | write (s : List Nat)

/-- Run a trace, collecting the bytes returned by each `read`. -/
def runDisk : Disk → List DiskOp → List (List Nat)
  | _, [] => []
  | d, DiskOp.seek n :: ops => runDisk (dseek d n) ops
  | d, DiskOp.read n :: ops =>
      let r := dread d n
      r.1 :: runDisk r.2 ops
  | d, DiskOp.write s :: ops => runDisk (dwrite d s) ops

/-- The reference model the claim describes: a plain seekable byte stream
(each byte read returns the most recent write to that offset, or the
backing content), with the same end-of-stream clamping as `disk`. -/
structure SpecS where
  data : Nat → Nat
  pos : Nat
  size : Nat

def specSeek (s : SpecS) (offset : Nat) : SpecS :=
  { s with pos := if offset > s.size then s.size else offset }

def specRead (s : SpecS) (n0 : Nat) : List Nat × SpecS :=
  let n := if s.size ≠ 0 ∧ s.pos + n0 > s.size then s.size - s.pos else n0
  ((List.range n).map (fun k => s.data (s.pos + k)), { s with pos := s.pos + n })

def specWrite (s : SpecS) (bs : List Nat) : SpecS :=
  { s with data := overlay s.data s.pos bs, pos := s.pos + bs.length }

def runSpec : SpecS → List DiskOp → List (List Nat)
  | _, [] => []
  | s, DiskOp.seek n :: ops => runSpec (specSeek s n) ops
  | s, DiskOp.read n :: ops =>
      let r := specRead s n
      r.1 :: runSpec r.2 ops
  | s, DiskOp.write bs :: ops => runSpec (specWrite s bs) ops

/-- The failing trace: read 10 bytes at 0, then write two bytes without an
intervening seek, then read back offsets 10..11 and 0..1. -/
def failTrace : List DiskOp :=
  [DiskOp.seek 0, DiskOp.read 10, DiskOp.write [65, 66],
   DiskOp.seek 10, DiskOp.read 2, DiskOp.seek 0, DiskOp.read 2]

set_option maxRecDepth 100000 in
/-- C1 fails on the code: on a zero-filled 2048-byte ramdisk, after
`seek(0); read(10); write(b'AB')` the stream position is 12 (so the write
covers offsets 10..11 under the claim's read-your-writes model), but
`disk.read` never updates `si`/`so` at exit, so the write lands at offsets
0..1; the read at offset 10 returns zeros instead of `AB`, and the read at
offset 0 returns `AB` although offset 0 was never written. -/
theorem c1_cache_read_your_writes_bug :
    runDisk (mkDisk (fun _ => 0) 2048) failTrace
      = [List.replicate 10 0, [0, 0], [65, 66]]
    ∧ runSpec (SpecS.mk (fun _ => 0) 0 2048) failTrace
      = [List.replicate 10 0, [65, 66], [0, 0]]
    ∧ runDisk (mkDisk (fun _ => 0) 2048) failTrace
      ≠ runSpec (SpecS.mk (fun _ => 0) 0 2048) failTrace := by
  refine ⟨by decide, by decide, by decide⟩

end DiskCache

/-! ## C10 — exFAT allocation bitmap (`exFAT.py` `Bitmap.set` /
`Bitmap.isset`).  The `Bitmap` is a `Chain` presenting the on-disk bitmap as
a flat seekable byte stream; it is modelled as a byte map plus position. -/

namespace ExBitmap

/-- The bitmap stream: byte contents and current position. -/
structure Bmp where
  data : Nat → Nat
  pos : Nat

/-- One-byte `write(struct.pack('B', B))`. -/
def writeByte (st : Bmp) (v : Nat) : Bmp :=
  { data := fun q => if q = st.pos then v else st.data q, pos := st.pos + 1 }

/-- `write` of `n` identical bytes. -/
def writeFill (st : Bmp) (n fill : Nat) : Bmp :=
  { data := fun q => if st.pos ≤ q ∧ q < st.pos + n then fill else st.data q,
    pos := st.pos + n }

/-- The `while octets:` loop of `Bitmap.set`, writing `min(32768, octets)`
fill bytes per pass (fuel-bounded; `octets` fuel suffices since every pass
writes at least one byte). -/
def writeChunks (fill : Nat) : Nat → Bmp → Nat → Bmp
  | 0, st, _ => st
  | fuel + 1, st, octets =>
      if octets = 0 then st
      else
        let i := min 32768 octets
        writeChunks fill fuel (writeFill st i fill) (octets - i)

/-- `Bitmap.isset(cluster)`: bit `(cluster-2) % 8` of byte
`(cluster-2) // 8` (`assert cluster > 1`). -/
def bitmapIsset (st : Bmp) (cluster : Nat) : Bool :=
  decide (st.data ((cluster - 2) / 8) &&& (1 <<< ((cluster - 2) % 8)) ≠ 0)

/-- `B |= mask` / `B &= ~mask` of `Bitmap.set`; Python's `B & ~mask` on a
byte value equals `B &&& (255 ^^^ mask)` here (`0 ≤ B < 256`,
`mask ≤ 255`). -/
def maskedSet (B mask : Nat) (clear : Bool) : Nat :=
  if clear then B &&& (255 ^^^ mask) else B ||| mask

/-- `Bitmap.set(cluster, length, clear)` (`assert cluster > 1`): an aligned
head byte read-modify-write for `cluster % 8 ≠ 0` (mask
`(0xFF >> (8-todo)) << rem`), whole fill bytes, and a tail byte
read-modify-write for the remaining `length % 8` bits (mask
`0xFF >> (8-rem)`). -/
def bitmapSet (st : Bmp) (cluster length : Nat) (clear : Bool) : Bmp :=
  let c := cluster - 2
  let pos := c / 8
  let rem := c % 8
  let st : Bmp := { st with pos := pos }
  let st1L :=
    if rem ≠ 0 then
      let B := st.data st.pos
      let st : Bmp := { st with pos := st.pos + 1 }
      let todo := min (8 - rem) length
      let B' := maskedSet B ((255 >>> (8 - todo)) <<< rem) clear
      let st : Bmp := { st with pos := st.pos - 1 }
      (writeByte st B', length - todo)
    else (st, length)
  let st := st1L.1
  let length := st1L.2
  let octets := length / 8
  let st := writeChunks (if clear then 0 else 255) octets st octets
  let rem2 := length % 8
  if rem2 ≠ 0 then
    let B := st.data st.pos
    let st : Bmp := { st with pos := st.pos + 1 }
    let B' := maskedSet B (255 >>> (8 - rem2)) clear
    let st : Bmp := { st with pos := st.pos - 1 }
    writeByte st B'
  else st

theorem writeChunks_spec (fill : Nat) :
    ∀ (fuel : Nat) (st : Bmp) (octets : Nat), octets ≤ fuel →
      (∀ q, (writeChunks fill fuel st octets).data q
        = if st.pos ≤ q ∧ q < st.pos + octets then fill else st.data q)
      ∧ (writeChunks fill fuel st octets).pos = st.pos + octets := by
  intro fuel
  induction fuel with
  | zero =>
      intro st octets hle
      have h0 : octets = 0 := by omega
      subst h0
      unfold writeChunks
      constructor
      · intro q
        rw [if_neg (by omega)]
      · omega
  | succ fuel ih =>
      intro st octets hle
      unfold writeChunks
      by_cases h0 : octets = 0
      · rw [if_pos h0]
        refine ⟨fun q => ?_, by omega⟩
        rw [if_neg (by omega)]
      · rw [if_neg h0]
        have hrec := ih (writeFill st (min 32768 octets) fill)
          (octets - min 32768 octets) (by omega)
        constructor
        · intro q
          rw [hrec.1 q]
          unfold writeFill
          simp only
          by_cases hq : st.pos + min 32768 octets ≤ q ∧
              q < st.pos + min 32768 octets + (octets - min 32768 octets)
          · rw [if_pos hq, if_pos (by omega)]
          · rw [if_neg hq]
            by_cases hq2 : st.pos ≤ q ∧ q < st.pos + min 32768 octets
            · rw [if_pos hq2, if_pos (by omega)]
            · rw [if_neg hq2, if_neg (by omega)]
        · rw [hrec.2]
          unfold writeFill
          simp only
          omega

theorem shr255 (t : Nat) (ht : t ≤ 8) : 255 >>> (8 - t) = 2 ^ t - 1 := by
  interval_cases t <;> rfl

theorem maskBit (todo rem k : Nat) (ht : todo ≤ 8) :
    Nat.testBit ((255 >>> (8 - todo)) <<< rem) k
      = decide (rem ≤ k ∧ k < rem + todo) := by
  rw [shr255 todo ht, Nat.testBit_shiftLeft, Nat.testBit_two_pow_sub_one]
  by_cases hk : rem ≤ k
  · have : k - rem < todo ↔ k < rem + todo := by omega
    simp [hk, this]
  · simp [hk, fun h : rem ≤ k ∧ k < rem + todo => hk h.1]

theorem maskedSet_testBit (B m : Nat) (clear : Bool) (k : Nat) (hk : k < 8) :
    Nat.testBit (maskedSet B m clear) k
      = if Nat.testBit m k then !clear else Nat.testBit B k := by
  have h255 : Nat.testBit 255 k = true := by
    have h : (255 : Nat) = 2 ^ 8 - 1 := by norm_num
    rw [h, Nat.testBit_two_pow_sub_one]
    simpa using hk
  cases clear with
  | false =>
      show Nat.testBit (B ||| m) k = _
      rw [Nat.testBit_or]
      cases hm : Nat.testBit m k <;> simp
  | true =>
      show Nat.testBit (B &&& (255 ^^^ m)) k = _
      rw [Nat.testBit_and, Nat.testBit_xor, h255]
      cases hm : Nat.testBit m k <;> simp

theorem maskedSet_lt (B m : Nat) (clear : Bool) (hB : B < 256) (hm : m < 256) :
    maskedSet B m clear < 256 := by
  unfold maskedSet
  split
  · have hx : (255 ^^^ m) < 2 ^ 8 :=
      Nat.xor_lt_two_pow (by norm_num) (by omega)
    have := Nat.and_lt_two_pow B hx
    omega
  · have := Nat.or_lt_two_pow (show B < 2 ^ 8 by omega) (show m < 2 ^ 8 by omega)
    omega

theorem bitmapSet_data_aligned (st : Bmp) (c L : Nat) (clear : Bool)
    (hrem : (c - 2) % 8 = 0) (b : Nat) :
    (bitmapSet st c L clear).data b =
      if L % 8 ≠ 0 ∧ b = (c - 2) / 8 + L / 8 then
        maskedSet (st.data b) (255 >>> (8 - L % 8)) clear
      else if (c - 2) / 8 ≤ b ∧ b < (c - 2) / 8 + L / 8 then
        (if clear then 0 else 255)
      else st.data b := by
  unfold bitmapSet
  simp only [hrem, ne_eq, not_true_eq_false, if_false]
  obtain ⟨hchd, hchp⟩ := writeChunks_spec (if clear then 0 else 255) (L / 8)
      { data := st.data, pos := (c - 2) / 8 } (L / 8) (le_refl _)
  simp only at hchd hchp
  by_cases hr2 : L % 8 = 0
  · rw [if_neg (show ¬¬L % 8 = 0 by simpa using hr2)]
    rw [hchd b]
    rw [if_neg (show ¬(¬L % 8 = 0 ∧ b = (c - 2) / 8 + L / 8) by simp [hr2])]
  · rw [if_pos (show ¬L % 8 = 0 from hr2)]
    unfold writeByte
    simp only
    rw [hchp]
    have hnorm : (c - 2) / 8 + L / 8 + 1 - 1 = (c - 2) / 8 + L / 8 := by omega
    rw [hnorm]
    by_cases hb : b = (c - 2) / 8 + L / 8
    · rw [if_pos hb, hchd, if_neg (show ¬((c - 2) / 8 ≤ (c - 2) / 8 + L / 8 ∧
          (c - 2) / 8 + L / 8 < (c - 2) / 8 + L / 8) by omega),
        if_pos (show ¬L % 8 = 0 ∧ b = (c - 2) / 8 + L / 8 from ⟨hr2, hb⟩), hb]
    · rw [if_neg hb, hchd b,
        if_neg (show ¬(¬L % 8 = 0 ∧ b = (c - 2) / 8 + L / 8) by simp [hb])]

theorem bitmapSet_data_unaligned (st : Bmp) (c L : Nat) (clear : Bool)
    (hrem : (c - 2) % 8 ≠ 0) (b : Nat) :
    (bitmapSet st c L clear).data b =
      if b = (c - 2) / 8 then
        maskedSet (st.data b)
          ((255 >>> (8 - min (8 - (c - 2) % 8) L)) <<< ((c - 2) % 8)) clear
      else if (L - min (8 - (c - 2) % 8) L) % 8 ≠ 0 ∧
          b = (c - 2) / 8 + 1 + (L - min (8 - (c - 2) % 8) L) / 8 then
        maskedSet (st.data b)
          (255 >>> (8 - (L - min (8 - (c - 2) % 8) L) % 8)) clear
      else if (c - 2) / 8 + 1 ≤ b ∧
          b < (c - 2) / 8 + 1 + (L - min (8 - (c - 2) % 8) L) / 8 then
        (if clear then 0 else 255)
      else st.data b := by
  unfold bitmapSet writeByte
  simp only [hrem, ne_eq, not_false_eq_true, if_true]
  have hsimp1 : (c - 2) / 8 + 1 - 1 = (c - 2) / 8 := by omega
  simp only [hsimp1]
  obtain ⟨hchd, hchp⟩ := writeChunks_spec (if clear then 0 else 255)
      ((L - min (8 - (c - 2) % 8) L) / 8)
      { data := fun q => if q = (c - 2) / 8 then
          maskedSet (st.data ((c - 2) / 8))
            ((255 >>> (8 - min (8 - (c - 2) % 8) L)) <<< ((c - 2) % 8)) clear
        else st.data q,
        pos := (c - 2) / 8 + 1 }
      ((L - min (8 - (c - 2) % 8) L) / 8) (le_refl _)
  simp only at hchd hchp
  simp only [hchd, hchp]
  by_cases hr2 : (L - min (8 - (c - 2) % 8) L) % 8 = 0
  · rw [if_neg (show ¬¬(L - min (8 - (c - 2) % 8) L) % 8 = 0 by simpa using hr2)]
    rw [hchd b]
    rw [if_neg (show ¬((L - min (8 - (c - 2) % 8) L) % 8 ≠ 0 ∧
      b = (c - 2) / 8 + 1 + (L - min (8 - (c - 2) % 8) L) / 8) by simp [hr2])]
    by_cases hb0 : b = (c - 2) / 8
    · rw [if_neg (show ¬((c - 2) / 8 + 1 ≤ b ∧
        b < (c - 2) / 8 + 1 + (L - min (8 - (c - 2) % 8) L) / 8) by omega)]
      rw [if_pos hb0, if_pos hb0, hb0]
    · rw [if_neg hb0, if_neg hb0]
  · rw [if_pos (show ¬(L - min (8 - (c - 2) % 8) L) % 8 = 0 from hr2)]
    dsimp only
    have hsimp2 : (c - 2) / 8 + 1 + (L - min (8 - (c - 2) % 8) L) / 8 + 1 - 1
        = (c - 2) / 8 + 1 + (L - min (8 - (c - 2) % 8) L) / 8 := by omega
    simp only [hsimp2]
    rw [if_neg (show ¬((c - 2) / 8 + 1 ≤ (c - 2) / 8 + 1 +
        (L - min (8 - (c - 2) % 8) L) / 8 ∧
        (c - 2) / 8 + 1 + (L - min (8 - (c - 2) % 8) L) / 8 <
        (c - 2) / 8 + 1 + (L - min (8 - (c - 2) % 8) L) / 8) by omega)]
    rw [if_neg (show ¬((c - 2) / 8 + 1 + (L - min (8 - (c - 2) % 8) L) / 8
        = (c - 2) / 8) by omega)]
    by_cases hbt : b = (c - 2) / 8 + 1 + (L - min (8 - (c - 2) % 8) L) / 8
    · rw [if_pos hbt]
      rw [if_neg (show ¬b = (c - 2) / 8 by omega)]
      rw [if_pos (show (L - min (8 - (c - 2) % 8) L) % 8 ≠ 0 ∧
        b = (c - 2) / 8 + 1 + (L - min (8 - (c - 2) % 8) L) / 8 from ⟨hr2, hbt⟩)]
      rw [hbt]
    · rw [if_neg hbt]
      rw [if_neg (show ¬((L - min (8 - (c - 2) % 8) L) % 8 ≠ 0 ∧
        b = (c - 2) / 8 + 1 + (L - min (8 - (c - 2) % 8) L) / 8) by simp [hbt])]
      by_cases hb0 : b = (c - 2) / 8
      · rw [if_neg (show ¬((c - 2) / 8 + 1 ≤ b ∧
          b < (c - 2) / 8 + 1 + (L - min (8 - (c - 2) % 8) L) / 8) by omega)]
        rw [if_pos hb0, if_pos hb0, hb0]
      · rw [if_neg hb0, if_neg hb0]

theorem mask_shift_lt (todo rem : Nat) (h : todo + rem ≤ 8) :
    ((255 >>> (8 - todo)) <<< rem) < 256 := by
  rw [shr255 todo (by omega), Nat.shiftLeft_eq]
  have h1 : (2 ^ todo - 1) * 2 ^ rem < 2 ^ todo * 2 ^ rem :=
    Nat.mul_lt_mul_of_lt_of_le (by
      have := Nat.pos_pow_of_pos todo (show 0 < 2 by norm_num)
      omega) (le_refl _) (Nat.pos_pow_of_pos rem (by norm_num))
  have h2 : 2 ^ todo * 2 ^ rem = 2 ^ (todo + rem) := (pow_add 2 todo rem).symm
  have h3 : (2 : Nat) ^ (todo + rem) ≤ 2 ^ 8 :=
    Nat.pow_le_pow_right (by norm_num) h
  have h4 : (2 : Nat) ^ 8 = 256 := by norm_num
  omega

theorem shr_lt (t : Nat) (ht : t ≤ 8) : 255 >>> (8 - t) < 256 := by
  rw [shr255 t ht]
  have := Nat.pow_le_pow_right (show 1 ≤ 2 by norm_num) ht
  have h8 : (2 : Nat) ^ 8 = 256 := by norm_num
  omega

/-- Every byte of the bitmap stays a byte after `Bitmap.set`. -/
theorem bitmapSet_data_lt (st : Bmp) (c L : Nat) (clear : Bool)
    (hdata : ∀ b, st.data b < 256) (b : Nat) :
    (bitmapSet st c L clear).data b < 256 := by
  have hfill : (if clear = true then 0 else 255) < 256 := by
    cases clear <;> norm_num
  by_cases hrem : (c - 2) % 8 = 0
  · rw [bitmapSet_data_aligned st c L clear hrem b]
    by_cases h1 : L % 8 ≠ 0 ∧ b = (c - 2) / 8 + L / 8
    · rw [if_pos h1]
      exact maskedSet_lt _ _ _ (hdata b) (shr_lt (L % 8) (by omega))
    · rw [if_neg h1]
      by_cases h2 : (c - 2) / 8 ≤ b ∧ b < (c - 2) / 8 + L / 8
      · rw [if_pos h2]
        exact hfill
      · rw [if_neg h2]
        exact hdata b
  · rw [bitmapSet_data_unaligned st c L clear hrem b]
    by_cases h1 : b = (c - 2) / 8
    · rw [if_pos h1]
      refine maskedSet_lt _ _ _ (hdata b) (mask_shift_lt _ _ ?_)
      have := Nat.min_le_left (8 - (c - 2) % 8) L
      omega
    · rw [if_neg h1]
      by_cases h2 : (L - min (8 - (c - 2) % 8) L) % 8 ≠ 0 ∧
          b = (c - 2) / 8 + 1 + (L - min (8 - (c - 2) % 8) L) / 8
      · rw [if_pos h2]
        exact maskedSet_lt _ _ _ (hdata b)
          (shr_lt ((L - min (8 - (c - 2) % 8) L) % 8) (by omega))
      · rw [if_neg h2]
        by_cases h3 : (c - 2) / 8 + 1 ≤ b ∧
            b < (c - 2) / 8 + 1 + (L - min (8 - (c - 2) % 8) L) / 8
        · rw [if_pos h3]
          exact hfill
        · rw [if_neg h3]
          exact hdata b

theorem and_one_shift_ne_zero (x k : Nat) :
    decide (x &&& (1 <<< k) ≠ 0) = Nat.testBit x k := by
  have h1 : (1 : Nat) <<< k = 2 ^ k := by rw [Nat.shiftLeft_eq, one_mul]
  rw [h1]
  cases hx : Nat.testBit x k with
  | true =>
      have hbit : Nat.testBit (x &&& 2 ^ k) k = true := by
        rw [Nat.testBit_and, hx, Nat.testBit_two_pow_self]
        rfl
      have hne : x &&& 2 ^ k ≠ 0 := by
        intro h0
        rw [h0, Nat.zero_testBit] at hbit
        exact Bool.false_ne_true hbit
      simp [hne]
  | false =>
      have hz : x &&& 2 ^ k = 0 := by
        apply Nat.eq_of_testBit_eq
        intro i
        rw [Nat.testBit_and, Nat.zero_testBit]
        by_cases hik : i = k
        · rw [hik, hx]
          rfl
        · rw [Nat.testBit_two_pow_of_ne (fun h => hik h.symm)]
          exact Bool.and_false _
      simp [hz]

/-- `Bitmap.isset` in terms of `testBit`. -/
theorem bitmapIsset_testBit (st : Bmp) (x : Nat) :
    bitmapIsset st x = Nat.testBit (st.data ((x - 2) / 8)) ((x - 2) % 8) := by
  unfold bitmapIsset
  exact and_one_shift_ne_zero _ _

/-- Bit-exact effect of `Bitmap.set`: bit `j` of bitmap byte `b` (bitmap bit
`8*b + j`, i.e. cluster `2 + 8*b + j`) becomes `!clear` exactly on the `L`
bits of the run, and is untouched elsewhere. -/
theorem bitmapSet_testBit (st : Bmp) (c L : Nat) (clear : Bool)
    (hc : 2 ≤ c) (hL : 1 ≤ L) (hdata : ∀ b, st.data b < 256)
    (b j : Nat) (hj : j < 8) :
    Nat.testBit ((bitmapSet st c L clear).data b) j
      = if c - 2 ≤ 8 * b + j ∧ 8 * b + j < c - 2 + L then !clear
        else Nat.testBit (st.data b) j := by
  have h255 : Nat.testBit 255 j = true := by
    have h : (255 : Nat) = 2 ^ 8 - 1 := by norm_num
    rw [h, Nat.testBit_two_pow_sub_one]
    simpa using hj
  have hfill : ∀ cl : Bool, Nat.testBit (if cl = true then 0 else 255) j = !cl := by
    intro cl
    cases cl <;> simp [h255]
  by_cases hrem : (c - 2) % 8 = 0
  · rw [bitmapSet_data_aligned st c L clear hrem b]
    by_cases h1 : L % 8 ≠ 0 ∧ b = (c - 2) / 8 + L / 8
    · rw [if_pos h1, maskedSet_testBit _ _ _ j hj, shr255 (L % 8) (by omega),
        Nat.testBit_two_pow_sub_one]
      by_cases hjr : j < L % 8
      · rw [if_pos (by simpa using hjr), if_pos (by omega)]
      · rw [if_neg (by simpa using hjr), if_neg (by omega)]
    · rw [if_neg h1]
      by_cases h2 : (c - 2) / 8 ≤ b ∧ b < (c - 2) / 8 + L / 8
      · rw [if_pos h2, hfill clear, if_pos (by omega)]
      · rw [if_neg h2, if_neg (by omega)]
  · rw [bitmapSet_data_unaligned st c L clear hrem b]
    by_cases h1 : b = (c - 2) / 8
    · rw [if_pos h1, maskedSet_testBit _ _ _ j hj,
        maskBit (min (8 - (c - 2) % 8) L) ((c - 2) % 8) j (by omega)]
      by_cases hjr : (c - 2) % 8 ≤ j ∧ j < (c - 2) % 8 + min (8 - (c - 2) % 8) L
      · rw [if_pos (by simpa using hjr), if_pos (by omega)]
      · rw [if_neg (by simpa using hjr), if_neg (by omega)]
    · rw [if_neg h1]
      by_cases h2 : (L - min (8 - (c - 2) % 8) L) % 8 ≠ 0 ∧
          b = (c - 2) / 8 + 1 + (L - min (8 - (c - 2) % 8) L) / 8
      · rw [if_pos h2, maskedSet_testBit _ _ _ j hj,
          shr255 ((L - min (8 - (c - 2) % 8) L) % 8) (by omega),
          Nat.testBit_two_pow_sub_one]
        by_cases hjr : j < (L - min (8 - (c - 2) % 8) L) % 8
        · rw [if_pos (by simpa using hjr), if_pos (by omega)]
        · rw [if_neg (by simpa using hjr), if_neg (by omega)]
      · rw [if_neg h2]
        by_cases h3 : (c - 2) / 8 + 1 ≤ b ∧
            b < (c - 2) / 8 + 1 + (L - min (8 - (c - 2) % 8) L) / 8
        · rw [if_pos h3, hfill clear, if_pos (by omega)]
        · rw [if_neg h3, if_neg (by omega)]

/-- C10: frame effect of `Bitmap.set`.  For any cluster `c ≥ 2` and run
length `L ≥ 1`: (1) bit `(c-2+k) % 8` of bitmap byte `(c-2+k) / 8` — and no
other bit of any byte — is changed, to 1 when setting and 0 when clearing;
(2) `isset(x)` afterwards returns the written value for every
`x ∈ [c, c+L)`; (3) `isset(y)` is unchanged for every other cluster `y`;
(4) bytes wholly outside the run are untouched. -/
theorem c10_bitmap_set (st : Bmp) (c L : Nat) (clear : Bool)
    (hc : 2 ≤ c) (hL : 1 ≤ L) (hdata : ∀ b, st.data b < 256) :
    (∀ b j, j < 8 → Nat.testBit ((bitmapSet st c L clear).data b) j
        = if c - 2 ≤ 8 * b + j ∧ 8 * b + j < c - 2 + L then !clear
          else Nat.testBit (st.data b) j)
    ∧ (∀ x, c ≤ x → x < c + L → bitmapIsset (bitmapSet st c L clear) x = !clear)
    ∧ (∀ y, 2 ≤ y → ¬(c ≤ y ∧ y < c + L) →
        bitmapIsset (bitmapSet st c L clear) y = bitmapIsset st y)
    ∧ (∀ b, 8 * b + 8 ≤ c - 2 ∨ c - 2 + L ≤ 8 * b →
        (bitmapSet st c L clear).data b = st.data b) := by
  have hbit := bitmapSet_testBit st c L clear hc hL hdata
  refine ⟨hbit, ?_, ?_, ?_⟩
  · intro x hx1 hx2
    rw [bitmapIsset_testBit]
    rw [hbit ((x - 2) / 8) ((x - 2) % 8) (by omega)]
    rw [if_pos (by omega)]
  · intro y hy1 hy2
    rw [bitmapIsset_testBit, bitmapIsset_testBit]
    rw [hbit ((y - 2) / 8) ((y - 2) % 8) (by omega)]
    rw [if_neg (by omega)]
  · intro b hb
    apply Nat.eq_of_testBit_eq
    intro j
    by_cases hj : j < 8
    · rw [hbit b j hj, if_neg (by omega)]
    · have hp : (2 : Nat) ^ 8 ≤ 2 ^ j := Nat.pow_le_pow_right (by norm_num) (by omega)
      have h256 : (2 : Nat) ^ 8 = 256 := by norm_num
      have h1 : Nat.testBit ((bitmapSet st c L clear).data b) j = false :=
        Nat.testBit_lt_two_pow (by
          have := bitmapSet_data_lt st c L clear hdata b
          omega)
      have h2 : Nat.testBit (st.data b) j = false :=
        Nat.testBit_lt_two_pow (by
          have := hdata b
          omega)
      rw [h1, h2]

/-- Witness for `c10_bitmap_set`: setting 11 bits from cluster 5 in an
all-zero bitmap, checked at byte 0 / bit 3, cluster 6 inside the run, and
cluster 4 outside it. -/
theorem c10_bitmap_set_witness :
    (2 ≤ 5 ∧ 1 ≤ 11 ∧ (∀ b, (Bmp.mk (fun _ => 0) 0).data b < 256))
    ∧ (Nat.testBit ((bitmapSet (Bmp.mk (fun _ => 0) 0) 5 11 false).data 0) 3
        = if 5 - 2 ≤ 8 * 0 + 3 ∧ 8 * 0 + 3 < 5 - 2 + 11 then !false
          else Nat.testBit ((Bmp.mk (fun _ => 0) 0).data 0) 3)
    ∧ bitmapIsset (bitmapSet (Bmp.mk (fun _ => 0) 0) 5 11 false) 6 = !false
    ∧ bitmapIsset (bitmapSet (Bmp.mk (fun _ => 0) 0) 5 11 false) 4
        = bitmapIsset (Bmp.mk (fun _ => 0) 0) 4
    ∧ (bitmapSet (Bmp.mk (fun _ => 0) 0) 5 11 false).data 3
        = (Bmp.mk (fun _ => 0) 0).data 3 := by
  have h := c10_bitmap_set (Bmp.mk (fun _ => 0) 0) 5 11 false (by norm_num)
    (by norm_num) (fun _ => by norm_num)
  exact ⟨⟨by norm_num, by norm_num, fun _ => by norm_num⟩,
    h.1 0 3 (by norm_num),
    h.2.1 6 (by norm_num) (by norm_num),
    h.2.2.1 4 (by norm_num) (by omega),
    h.2.2.2 3 (by omega)⟩

end ExBitmap

/-! ## C2/C3 — FAT table accessors and allocator (`FAT.py` `FAT.__init__`,
`FAT.__getitem__`, `FAT.__setitem__`, `FAT.map_compact`, `FAT.findfree`,
`FAT.mark_run`, `FAT.alloc`). -/

namespace FATtbl

open FATtools

/-- State of a `FAT` object.  The stream is a byte map (reads and writes in
the accessors always seek first, so no separate file position is kept); the
free-space fields are those built by `map_free_space` and maintained by the
allocator, with the free-runs dictionary as an insertion-ordered association
list as in Python 3.7+. -/
structure FATState where
  bits : Nat
  offset : Nat
  size : Nat
  exfat : Bool
  reserved : Nat
  last : Nat
  offset2 : Nat
  real_last : Nat
  decoded : Nat → Option Nat
  data : Nat → Nat
  free_clusters : Int
  free_clusters_map : List (Int × Int)
  free_clusters_flag : Bool
  last_free_alloc : Nat

/-- `FAT.__init__` for `bitsize=12, exfat=0, sector=512`: reserved/bad
`0x0FF7`, last `0x0FFF`, second-copy offset sector-rounded past the first,
`real_last = min(reserved-1, size+2-1)`, empty `decoded` cache.  The
free-space fields are taken as parameters (the `map_free_space` scan is not
embedded). -/
def mkFAT12 (data : Nat → Nat) (offset clusters : Nat) (freeClusters : Int)
    (freeMap : List (Int × Int)) : FATState :=
  { bits := 12
    offset := offset
    size := clusters
    exfat := false
    reserved := 0x0FF7
    last := 0x0FFF
    offset2 := offset + ((clusters * 12 + 7) / 8 + 511) / 512 * 512
    real_last := min (0x0FF7 - 1) (clusters + 2 - 1)
    decoded := fun _ => none
    data := data
    free_clusters := freeClusters
    free_clusters_map := freeMap
    free_clusters_flag := true
    last_free_alloc := 2 }

/-- The 16- or 32-bit little-endian raw slot at `pos`
(`struct.unpack(self.fat_slot_fmt, ...)`). -/
def readSlotRaw (s : FATState) (pos : Nat) : Nat :=
  if s.bits = 32 then read32le s.data pos else read16le s.data pos

/-- `struct.pack(self.fat_slot_fmt, v)` written at `pos`. -/
def writeSlotRaw (s : FATState) (d : Nat → Nat) (pos v : Nat) : Nat → Nat :=
  if s.bits = 32 then streamWrite d pos (pack32byte v) 4
  else streamWrite d pos (pack16byte v) 2

/-- Disk path of `FAT.__getitem__`: read the raw slot, extract the 12 bits
for FAT12 (odd index: high 12 of the 16-bit word; even: low 12), record it
in `decoded`. -/
def fatGetDisk (s : FATState) (index : Nat) : Nat × FATState :=
  let pos := s.offset + index * s.bits / 8
  let slot0 := readSlotRaw s pos
  let slot :=
    if s.bits = 12 then
      if index % 2 = 1 then slot0 >>> 4 else slot0 &&& 0x0FFF
    else slot0
  (slot, { s with decoded := fun j => if j = index then some slot else s.decoded j })

/-- `FAT.__getitem__`: out-of-range indices return `last`; a nonzero cached
value is returned directly (`if slot: return slot`), otherwise the slot is
read from the first FAT copy. -/
def fatGet (s : FATState) (index : Nat) : Nat × FATState :=
  if ¬(2 ≤ index ∧ index ≤ s.real_last) then (s.last, s)
  else
    match s.decoded index with
    | some w => if w ≠ 0 then (w, s) else fatGetDisk s index
    | none => fatGetDisk s index

/-- `FAT.__setitem__`: refuse out-of-range indices and values strictly
between `real_last` and `reserved`; for FAT12 read-modify-write the shared
16-bit word; write the packed slot to FAT1 and (`exfat` apart) mirror the
same bytes to FAT2. -/
def fatSet (s : FATState) (index value : Nat) : FATState :=
  if ¬(2 ≤ index ∧ index ≤ s.real_last) then s
  else if ¬(value ≤ s.real_last ∨ s.reserved ≤ value) then s
  else
    let decoded' := fun j => if j = index then some value else s.decoded j
    let dsp := index * s.bits / 8
    let pos := s.offset + dsp
    let value' :=
      if s.bits = 12 then
        let slot := read16le s.data pos
        if index % 2 = 1 then (value <<< 4) ||| (slot &&& 0xF)
        else (slot &&& 0xF000) ||| value
      else value
    let data1 := writeSlotRaw s s.data pos value'
    let data2 :=
      if s.exfat then data1 else writeSlotRaw s data1 (s.offset2 + dsp) value'
    { s with decoded := decoded', data := data2 }

/-- C3(a): `FAT.__getitem__` with an out-of-range index returns the LAST
end-of-chain marker (and leaves the state unchanged) instead of raising. -/
theorem fatGet_out_of_range (s : FATState) (index : Nat)
    (h : index < 2 ∨ s.real_last < index) :
    fatGet s index = (s.last, s) := by
  unfold fatGet
  have : ¬(2 ≤ index ∧ index ≤ s.real_last) := by omega
  simp [this]

/-- C3(b): `FAT.__setitem__` with an out-of-range index, or a value strictly
between `real_last` and `reserved`, performs no change at all. -/
theorem fatSet_refuses (s : FATState) (index value : Nat)
    (h : index < 2 ∨ s.real_last < index ∨
      (s.real_last < value ∧ value < s.reserved)) :
    fatSet s index value = s := by
  unfold fatSet
  by_cases h1 : 2 ≤ index ∧ index ≤ s.real_last
  · have h2 : ¬(value ≤ s.real_last ∨ s.reserved ≤ value) := by omega
    simp [h1, h2]
  · simp [h1]

theorem and_fff (x : Nat) : x &&& 0xFFF = x % 4096 := by
  have h : (0xFFF : Nat) = 2 ^ 12 - 1 := by norm_num
  rw [h, Nat.and_pow_two_sub_one_eq_mod]

theorem and_f (x : Nat) : x &&& 0xF = x % 16 := by
  have h : (0xF : Nat) = 2 ^ 4 - 1 := by norm_num
  rw [h, Nat.and_pow_two_sub_one_eq_mod]

theorem shr4 (x : Nat) : x >>> 4 = x / 16 := by
  rw [Nat.shiftRight_eq_div_pow]

theorem and_f000 (x : Nat) : x &&& 0xF000 = x / 4096 % 16 * 4096 := by
  have hmask : (0xF000 : Nat) = (2 ^ 4 - 1) <<< 12 := by decide
  have hrhs : x / 4096 % 16 * 4096 = ((x >>> 12) % 2 ^ 4) <<< 12 := by
    rw [Nat.shiftLeft_eq, Nat.shiftRight_eq_div_pow]
    norm_num
  rw [hmask, hrhs]
  apply Nat.eq_of_testBit_eq
  intro k
  simp only [Nat.testBit_and, Nat.testBit_shiftLeft, Nat.testBit_two_pow_sub_one,
    Nat.testBit_mod_two_pow, Nat.testBit_shiftRight]
  by_cases hk : 12 ≤ k
  · have : 12 + (k - 12) = k := by omega
    simp [hk, this, Bool.and_comm, Bool.and_left_comm]
  · simp [hk]

/-- The even-index merged word: `(slot & 0xF000) | value`. -/
theorem even_merge (w v : Nat) (hw : w < 65536) (hv : v < 4096) :
    (w &&& 0xF000) ||| v = w / 4096 * 4096 + v := by
  have h1 : w &&& 0xF000 = w / 4096 * 4096 := by
    rw [and_f000]
    have : w / 4096 < 16 := by omega
    rw [Nat.mod_eq_of_lt this]
  rw [h1]
  have h2 : (4096 : Nat) = 2 ^ 12 := by norm_num
  have := Nat.mul_add_lt_is_or (show v < 2 ^ 12 by omega) (w / 4096)
  calc w / 4096 * 4096 ||| v = 2 ^ 12 * (w / 4096) ||| v := by
        rw [← h2, Nat.mul_comm]
    _ = 2 ^ 12 * (w / 4096) + v := this.symm
    _ = w / 4096 * 4096 + v := by rw [← h2, Nat.mul_comm]

/-- The odd-index merged word: `(value << 4) | (slot & 0xF)`. -/
theorem odd_merge (w v : Nat) :
    (v <<< 4) ||| (w &&& 0xF) = 16 * v + w % 16 := by
  rw [and_f, Nat.shiftLeft_eq]
  have h4 : (2 : Nat) ^ 4 = 16 := by norm_num
  have := Nat.mul_add_lt_is_or
    (show w % 16 < 2 ^ 4 by rw [h4]; exact Nat.mod_lt _ (by norm_num)) v
  rw [h4] at this
  calc v * 16 ||| w % 16 = 16 * v ||| w % 16 := by rw [Nat.mul_comm]
    _ = 16 * v + w % 16 := this.symm

/-- The 16-bit word `__setitem__` writes for a FAT12 index. -/
def fat12NewWord (s : FATState) (i v : Nat) : Nat :=
  let slot := read16le s.data (s.offset + i * 12 / 8)
  if i % 2 = 1 then (v <<< 4) ||| (slot &&& 0xF) else (slot &&& 0xF000) ||| v

theorem fat12NewWord_lt (s : FATState) (i v : Nat)
    (hdata : ∀ p, s.data p < 256) (hv : v < 4096) :
    fat12NewWord s i v < 65536 := by
  unfold fat12NewWord
  have hw : read16le s.data (s.offset + i * 12 / 8) < 65536 := by
    have h0 := hdata (s.offset + i * 12 / 8)
    have h1 := hdata (s.offset + i * 12 / 8 + 1)
    unfold read16le
    omega
  set w := read16le s.data (s.offset + i * 12 / 8)
  split
  · rw [odd_merge]
    omega
  · rw [even_merge w v hw hv]
    omega

/-- Unfolding of `fatSet` in the FAT12, non-exFAT, in-range case: `decoded`
gains the value and the merged word is written to both FAT copies. -/
theorem fatSet_eq (s : FATState) (i v : Nat) (hb : s.bits = 12)
    (he : s.exfat = false) (hi : 2 ≤ i ∧ i ≤ s.real_last)
    (hv : v ≤ s.real_last ∨ s.reserved ≤ v) :
    fatSet s i v =
      { s with
        decoded := fun j => if j = i then some v else s.decoded j
        data := streamWrite
          (streamWrite s.data (s.offset + i * 12 / 8)
            (pack16byte (fat12NewWord s i v)) 2)
          (s.offset2 + i * 12 / 8) (pack16byte (fat12NewWord s i v)) 2 } := by
  unfold fatSet writeSlotRaw fat12NewWord
  rw [hb, he]
  simp only [hi, hv, if_true, not_true_eq_false, if_false]
  simp

/-- The 12-bit value a FAT12 `__getitem__` disk read extracts for index `i`
from byte map `d` with first-copy offset `off`. -/
def value12 (d : Nat → Nat) (off i : Nat) : Nat :=
  if i % 2 = 1 then read16le d (off + i * 12 / 8) >>> 4
  else read16le d (off + i * 12 / 8) &&& 0xFFF

theorem fatGetDisk_eq (s : FATState) (i : Nat) (hb : s.bits = 12) :
    fatGetDisk s i = (value12 s.data s.offset i,
      { s with decoded := fun j =>
          if j = i then some (value12 s.data s.offset i) else s.decoded j }) := by
  unfold fatGetDisk readSlotRaw value12
  rw [hb]
  norm_num

/-- Round trip at the disk level: after `__setitem__(i, v)`, the 12 bits of
index `i` in the first FAT copy decode to `v`. -/
theorem value12_set_self (s : FATState) (i v : Nat)
    (hb : s.bits = 12) (he : s.exfat = false)
    (hoff2 : s.offset + 512 ≤ s.offset2)
    (hdata : ∀ p, s.data p < 256) (hv4 : v < 4096)
    (hi : 2 ≤ i ∧ i ≤ s.real_last) (hv : v ≤ s.real_last ∨ s.reserved ≤ v) :
    value12 (fatSet s i v).data s.offset i = v := by
  rw [fatSet_eq s i v hb he hi hv]
  set D := i * 12 / 8 with hD
  set w' := fat12NewWord s i v with hw'
  have hlt : w' < 65536 := fat12NewWord_lt s i v hdata hv4
  have hb0 : (streamWrite
      (streamWrite s.data (s.offset + D) (pack16byte w') 2)
      (s.offset2 + D) (pack16byte w') 2) (s.offset + D) = pack16byte w' 0 := by
    unfold streamWrite
    rw [if_neg (by omega :
      ¬(s.offset2 + D ≤ s.offset + D ∧ s.offset + D < s.offset2 + D + 2))]
    rw [if_pos (by omega :
      s.offset + D ≤ s.offset + D ∧ s.offset + D < s.offset + D + 2)]
    congr 1
    omega
  have hb1 : (streamWrite
      (streamWrite s.data (s.offset + D) (pack16byte w') 2)
      (s.offset2 + D) (pack16byte w') 2) (s.offset + D + 1) = pack16byte w' 1 := by
    unfold streamWrite
    rw [if_neg (by omega :
      ¬(s.offset2 + D ≤ s.offset + D + 1 ∧ s.offset + D + 1 < s.offset2 + D + 2))]
    rw [if_pos (by omega :
      s.offset + D ≤ s.offset + D + 1 ∧ s.offset + D + 1 < s.offset + D + 2)]
    congr 1
    omega
  unfold value12
  simp only
  rw [read16le_pack16 _ _ _ hb0 hb1 hlt]
  rw [hw']
  unfold fat12NewWord
  simp only [← hD]
  set w := read16le s.data (s.offset + D) with hwdef
  have hwlt : w < 65536 := by
    have h0 := hdata (s.offset + D)
    have h1 := hdata (s.offset + D + 1)
    rw [hwdef]
    unfold read16le
    omega
  by_cases hpar : i % 2 = 1
  · simp only [hpar, if_true]
    rw [odd_merge, shr4]
    omega
  · simp only [hpar, if_false]
    rw [even_merge w v hwlt hv4, and_fff]
    omega

/-- Neighbour preservation at the disk level: `__setitem__(i, v)` leaves the
12 bits of every other index `j` of the first FAT copy unchanged. -/
theorem value12_set_frame (s : FATState) (i v j : Nat)
    (hb : s.bits = 12) (he : s.exfat = false)
    (hoff2 : s.offset2 = s.offset + ((s.size * 12 + 7) / 8 + 511) / 512 * 512)
    (hrl : s.real_last ≤ s.size + 1)
    (hdata : ∀ p, s.data p < 256) (hv4 : v < 4096)
    (hi : 2 ≤ i ∧ i ≤ s.real_last) (hv : v ≤ s.real_last ∨ s.reserved ≤ v)
    (hj : 2 ≤ j ∧ j ≤ s.real_last) (hij : j ≠ i) :
    value12 (fatSet s i v).data s.offset j = value12 s.data s.offset j := by
  rw [fatSet_eq s i v hb he hi hv]
  have hc1 : 1 ≤ s.size := by omega
  set L := ((s.size * 12 + 7) / 8 + 511) / 512 * 512 with hL
  have hL512 : 512 ≤ L := by rw [hL]; omega
  have hLbig : j * 12 / 8 + 1 < L + i * 12 / 8 := by
    have h1 : j * 12 / 8 ≤ (s.size + 1) * 12 / 8 := by
      have : j ≤ s.size + 1 := by omega
      exact Nat.div_le_div_right (by omega)
    rw [hL]
    omega
  set D := i * 12 / 8 with hD
  set E := j * 12 / 8 with hE
  -- the mirror write to FAT2 never reaches the bytes of index j in FAT1
  have hfat2 : ∀ q, q ≤ s.offset + E + 1 →
      ¬(s.offset2 + D ≤ q ∧ q < s.offset2 + D + 2) := by
    intro q hq
    rw [hoff2]
    omega
  set w' := fat12NewWord s i v with hw'
  have hlt : w' < 65536 := fat12NewWord_lt s i v hdata hv4
  set d2 := streamWrite
      (streamWrite s.data (s.offset + D) (pack16byte w') 2)
      (s.offset2 + D) (pack16byte w') 2 with hd2
  have hd2q : ∀ q, q ≤ s.offset + E + 1 →
      d2 q = if s.offset + D ≤ q ∧ q < s.offset + D + 2 then
        pack16byte w' (q - (s.offset + D)) else s.data q := by
    intro q hq
    rw [hd2]
    unfold streamWrite
    simp [hfat2 q hq]
  by_cases hpar : i % 2 = 0
  · by_cases hshared : j = i + 1
    · -- j is the odd neighbour sharing the middle byte of the 24-bit group
      have hjodd : j % 2 = 1 := by omega
      have hED : E = D + 1 := by rw [hE, hD]; omega
      have hq0 : d2 (s.offset + E) = pack16byte w' 1 := by
        rw [hd2q _ (by omega), hED]
        have h1 : s.offset + D ≤ s.offset + (D + 1) ∧
            s.offset + (D + 1) < s.offset + D + 2 := by omega
        simp only [h1, and_self, if_true]
        congr 1
        omega
      have hq1 : d2 (s.offset + E + 1) = s.data (s.offset + E + 1) := by
        rw [hd2q _ (by omega), hED]
        have h1 : ¬(s.offset + D ≤ s.offset + (D + 1) + 1 ∧
            s.offset + (D + 1) + 1 < s.offset + D + 2) := by omega
        rw [if_neg h1]
      unfold value12
      simp only [hjodd, if_true, ← hE]
      unfold read16le
      rw [hq0, hq1]
      have hb0 := hdata (s.offset + D)
      have hb1 := hdata (s.offset + D + 1)
      have hb2 := hdata (s.offset + E + 1)
      rw [hw']
      unfold fat12NewWord
      simp only [← hD, hpar]
      norm_num
      rw [even_merge _ v (by
        have h0 := hdata (s.offset + D)
        have h1 := hdata (s.offset + D + 1)
        unfold read16le
        omega) hv4]
      unfold read16le pack16byte
      simp only [pow_one]
      rw [shr4, shr4]
      have hED1 : s.offset + E = s.offset + D + 1 := by omega
      have hED2 : s.offset + E + 1 = s.offset + D + 2 := by omega
      rw [hED1, hED2] at *
      omega
    · -- bytes of j are disjoint from the two bytes written for i
      have hdisj : E + 1 < D ∨ D + 1 < E := by
        rw [hE, hD]
        omega
      have hq0 : d2 (s.offset + E) = s.data (s.offset + E) := by
        rw [hd2q _ (by omega)]
        have : ¬(s.offset + D ≤ s.offset + E ∧ s.offset + E < s.offset + D + 2) := by
          omega
        rw [if_neg this]
      have hq1 : d2 (s.offset + E + 1) = s.data (s.offset + E + 1) := by
        rw [hd2q _ (by omega)]
        have : ¬(s.offset + D ≤ s.offset + E + 1 ∧
            s.offset + E + 1 < s.offset + D + 2) := by omega
        rw [if_neg this]
      unfold value12
      simp only [← hE]
      unfold read16le
      rw [hq0, hq1]
  · by_cases hshared : j + 1 = i
    · -- j is the even neighbour sharing the middle byte of the 24-bit group
      have hjeven : j % 2 = 0 := by omega
      have hED : D = E + 1 := by rw [hE, hD]; omega
      have hq0 : d2 (s.offset + E) = s.data (s.offset + E) := by
        rw [hd2q _ (by omega), hED]
        have h1 : ¬(s.offset + (E + 1) ≤ s.offset + E ∧
            s.offset + E < s.offset + (E + 1) + 2) := by omega
        rw [if_neg h1]
      have hq1 : d2 (s.offset + E + 1) = pack16byte w' 0 := by
        rw [hd2q _ (by omega), hED]
        have h1 : s.offset + (E + 1) ≤ s.offset + E + 1 ∧
            s.offset + E + 1 < s.offset + (E + 1) + 2 := by omega
        simp only [h1, and_self, if_true]
        congr 1
        omega
      unfold value12
      simp only [hjeven, ← hE]
      norm_num
      unfold read16le
      rw [hq0, hq1]
      have hb0 := hdata (s.offset + E)
      have hb1 := hdata (s.offset + E + 1)
      have hb2 := hdata (s.offset + E + 2)
      rw [hw']
      unfold fat12NewWord
      have hpar1 : i % 2 = 1 := by omega
      simp only [← hD, hpar1, if_true]
      rw [odd_merge]
      unfold read16le pack16byte
      simp only [pow_zero, Nat.div_one]
      rw [and_fff, and_fff]
      have hED1 : s.offset + D = s.offset + E + 1 := by omega
      have hED2 : s.offset + D + 1 = s.offset + E + 2 := by omega
      rw [hED1, hED2] at *
      omega
    · have hdisj : E + 1 < D ∨ D + 1 < E := by
        rw [hE, hD]
        omega
      have hq0 : d2 (s.offset + E) = s.data (s.offset + E) := by
        rw [hd2q _ (by omega)]
        have : ¬(s.offset + D ≤ s.offset + E ∧ s.offset + E < s.offset + D + 2) := by
          omega
        rw [if_neg this]
      have hq1 : d2 (s.offset + E + 1) = s.data (s.offset + E + 1) := by
        rw [hd2q _ (by omega)]
        have : ¬(s.offset + D ≤ s.offset + E + 1 ∧
            s.offset + E + 1 < s.offset + D + 2) := by omega
        rw [if_neg this]
      unfold value12
      simp only [← hE]
      unfold read16le
      rw [hq0, hq1]

/-- `__getitem__` on a valid index with a nonzero cached value returns it
(`if slot: return slot`). -/
theorem fatGet_fst_cached (s : FATState) (idx w : Nat)
    (hval : 2 ≤ idx ∧ idx ≤ s.real_last)
    (hd : s.decoded idx = some w) (hw : w ≠ 0) : (fatGet s idx).1 = w := by
  unfold fatGet
  rw [if_neg (not_not_intro hval), hd]
  simp [hw]

/-- `__getitem__` on a valid index with no (or a zero) cached value reads
the 12 bits from the first FAT copy. -/
theorem fatGet_fst_disk (s : FATState) (idx : Nat) (hb : s.bits = 12)
    (hval : 2 ≤ idx ∧ idx ≤ s.real_last)
    (hd : s.decoded idx = none ∨ s.decoded idx = some 0) :
    (fatGet s idx).1 = value12 s.data s.offset idx := by
  unfold fatGet
  rw [if_neg (not_not_intro hval)]
  rcases hd with hd | hd <;> rw [hd] <;> simp [fatGetDisk_eq s idx hb]

theorem mirror_bytes0 (data : Nat → Nat) (p1 p2 w' : Nat) (h12 : p1 + 2 ≤ p2) :
    streamWrite (streamWrite data p1 (pack16byte w') 2) p2 (pack16byte w') 2 p2
      = streamWrite (streamWrite data p1 (pack16byte w') 2) p2 (pack16byte w') 2 p1 := by
  have e1 : streamWrite (streamWrite data p1 (pack16byte w') 2) p2
      (pack16byte w') 2 p2 = pack16byte w' 0 := by
    unfold streamWrite
    rw [if_pos (by omega : p2 ≤ p2 ∧ p2 < p2 + 2)]
    congr 1
    omega
  have e2 : streamWrite (streamWrite data p1 (pack16byte w') 2) p2
      (pack16byte w') 2 p1 = pack16byte w' 0 := by
    unfold streamWrite
    rw [if_neg (by omega : ¬(p2 ≤ p1 ∧ p1 < p2 + 2))]
    rw [if_pos (by omega : p1 ≤ p1 ∧ p1 < p1 + 2)]
    congr 1
    omega
  rw [e1, e2]

theorem mirror_bytes1 (data : Nat → Nat) (p1 p2 w' : Nat) (h12 : p1 + 2 ≤ p2) :
    streamWrite (streamWrite data p1 (pack16byte w') 2) p2 (pack16byte w') 2 (p2 + 1)
      = streamWrite (streamWrite data p1 (pack16byte w') 2) p2 (pack16byte w') 2
          (p1 + 1) := by
  have e1 : streamWrite (streamWrite data p1 (pack16byte w') 2) p2
      (pack16byte w') 2 (p2 + 1) = pack16byte w' 1 := by
    unfold streamWrite
    rw [if_pos (by omega : p2 ≤ p2 + 1 ∧ p2 + 1 < p2 + 2)]
    congr 1
    omega
  have e2 : streamWrite (streamWrite data p1 (pack16byte w') 2) p2
      (pack16byte w') 2 (p1 + 1) = pack16byte w' 1 := by
    unfold streamWrite
    rw [if_neg (by omega : ¬(p2 ≤ p1 + 1 ∧ p1 + 1 < p2 + 2))]
    rw [if_pos (by omega : p1 ≤ p1 + 1 ∧ p1 + 1 < p1 + 2)]
    congr 1
    omega
  rw [e1, e2]

theorem fatSet_fields (s : FATState) (i v : Nat) (hb : s.bits = 12)
    (he : s.exfat = false) (hi : 2 ≤ i ∧ i ≤ s.real_last)
    (hv : v ≤ s.real_last ∨ s.reserved ≤ v) :
    (fatSet s i v).bits = s.bits ∧ (fatSet s i v).offset = s.offset
    ∧ (fatSet s i v).offset2 = s.offset2 ∧ (fatSet s i v).real_last = s.real_last
    ∧ (fatSet s i v).size = s.size
    ∧ (fatSet s i v).decoded = fun j => if j = i then some v else s.decoded j := by
  rw [fatSet_eq s i v hb he hi hv]
  exact ⟨rfl, rfl, rfl, rfl, rfl, rfl⟩

/-- C2: FAT12 split-nibble round trip with neighbour preservation and FAT2
mirroring.  For a FAT12 table (`real_last`, `offset2` as `__init__` derives
them, byte-valued stream), a valid index `i` and a 12-bit value `v` passing
the `__setitem__` range check: reading back index `i` yields `v`; every
other valid index `j` reads the same value as before; and the two bytes
written to the first FAT copy are mirrored identically in the second. -/
theorem c2_fat12_set_get (s : FATState) (i v j : Nat)
    (hb : s.bits = 12) (he : s.exfat = false)
    (hoff2 : s.offset2 = s.offset + ((s.size * 12 + 7) / 8 + 511) / 512 * 512)
    (hrl : s.real_last ≤ s.size + 1)
    (hdata : ∀ p, s.data p < 256) (hv4 : v < 4096)
    (hi : 2 ≤ i ∧ i ≤ s.real_last) (hv : v ≤ s.real_last ∨ s.reserved ≤ v)
    (hj : 2 ≤ j ∧ j ≤ s.real_last) (hij : j ≠ i) :
    (fatGet (fatSet s i v) i).1 = v
    ∧ (fatGet (fatSet s i v) j).1 = (fatGet s j).1
    ∧ ((fatSet s i v).data (s.offset2 + i * 12 / 8)
        = (fatSet s i v).data (s.offset + i * 12 / 8)
      ∧ (fatSet s i v).data (s.offset2 + i * 12 / 8 + 1)
        = (fatSet s i v).data (s.offset + i * 12 / 8 + 1)) := by
  have hsz : 1 ≤ s.size := by omega
  have hL512 : s.offset + 512 ≤ s.offset2 := by
    rw [hoff2]
    omega
  obtain ⟨hfb, hfo, hfo2, hfrl, hfsz, hfdec⟩ := fatSet_fields s i v hb he hi hv
  have hself := value12_set_self s i v hb he hL512 hdata hv4 hi hv
  have hframe := value12_set_frame s i v j hb he hoff2 hrl hdata hv4 hi hv hj hij
  have hvi : 2 ≤ i ∧ i ≤ (fatSet s i v).real_last := by rw [hfrl]; exact hi
  have hvj : 2 ≤ j ∧ j ≤ (fatSet s i v).real_last := by rw [hfrl]; exact hj
  have hdeci : (fatSet s i v).decoded i = some v := by rw [hfdec]; simp
  have hdecj : (fatSet s i v).decoded j = s.decoded j := by
    rw [hfdec]; simp [hij]
  refine ⟨?_, ?_, ?_⟩
  · by_cases hvz : v = 0
    · rw [fatGet_fst_disk (fatSet s i v) i (hfb.trans hb) hvi
        (Or.inr (by rw [hdeci, hvz]))]
      rw [hfo]
      exact hself
    · exact fatGet_fst_cached (fatSet s i v) i v hvi hdeci hvz
  · cases hd : s.decoded j with
    | none =>
        rw [fatGet_fst_disk (fatSet s i v) j (hfb.trans hb) hvj
          (Or.inl (by rw [hdecj, hd]))]
        rw [fatGet_fst_disk s j hb hj (Or.inl hd), hfo]
        exact hframe
    | some w =>
        by_cases hw : w = 0
        · rw [fatGet_fst_disk (fatSet s i v) j (hfb.trans hb) hvj
            (Or.inr (by rw [hdecj, hd, hw]))]
          rw [fatGet_fst_disk s j hb hj (Or.inr (by rw [hd, hw])), hfo]
          exact hframe
        · rw [fatGet_fst_cached (fatSet s i v) j w hvj (by rw [hdecj, hd]) hw]
          rw [fatGet_fst_cached s j w hj hd hw]
  · rw [fatSet_eq s i v hb he hi hv]
    have h12 : s.offset + i * 12 / 8 + 2 ≤ s.offset2 + i * 12 / 8 := by omega
    exact ⟨mirror_bytes0 s.data (s.offset + i * 12 / 8) (s.offset2 + i * 12 / 8)
        (fat12NewWord s i v) h12,
      mirror_bytes1 s.data (s.offset + i * 12 / 8) (s.offset2 + i * 12 / 8)
        (fat12NewWord s i v) h12⟩

/-- Witness for `c2_fat12_set_get`: a fresh 16-cluster FAT12 table over an
all-zero stream, setting slot 2 to 5 and reading slots 2 and 3 back. -/
theorem c2_fat12_set_get_witness :
    (∀ p, (mkFAT12 (fun _ => 0) 0 16 0 []).data p < 256)
    ∧ ((fatGet (fatSet (mkFAT12 (fun _ => 0) 0 16 0 []) 2 5) 2).1 = 5
      ∧ (fatGet (fatSet (mkFAT12 (fun _ => 0) 0 16 0 []) 2 5) 3).1
          = (fatGet (mkFAT12 (fun _ => 0) 0 16 0 []) 3).1
      ∧ ((fatSet (mkFAT12 (fun _ => 0) 0 16 0 []) 2 5).data
            ((mkFAT12 (fun _ => 0) 0 16 0 []).offset2 + 2 * 12 / 8)
          = (fatSet (mkFAT12 (fun _ => 0) 0 16 0 []) 2 5).data
            ((mkFAT12 (fun _ => 0) 0 16 0 []).offset + 2 * 12 / 8)
        ∧ (fatSet (mkFAT12 (fun _ => 0) 0 16 0 []) 2 5).data
            ((mkFAT12 (fun _ => 0) 0 16 0 []).offset2 + 2 * 12 / 8 + 1)
          = (fatSet (mkFAT12 (fun _ => 0) 0 16 0 []) 2 5).data
            ((mkFAT12 (fun _ => 0) 0 16 0 []).offset + 2 * 12 / 8 + 1))) :=
  ⟨fun _ => by simp [mkFAT12],
    c2_fat12_set_get (mkFAT12 (fun _ => 0) 0 16 0 []) 2 5 3 rfl rfl (by decide)
      (by decide) (fun _ => by simp [mkFAT12]) (by decide) (by decide) (by decide)
      (by decide) (by decide)⟩

/-! ### The allocator (`map_compact`, `findfree`, `mark_run`, `alloc`).
Python dicts are insertion-ordered association lists; `popitem` pops the
most recently inserted entry; dict equality ignores order. -/

/-- `d.get(k)`. -/
def alGet (m : List (Int × Int)) (k : Int) : Option Int :=
  (m.find? (fun p => p.1 = k)).map (·.2)

/-- `d[k] = v`: update in place if present, else append. -/
def alSet (m : List (Int × Int)) (k v : Int) : List (Int × Int) :=
  if m.any (fun p => p.1 = k) then
    m.map (fun p => if p.1 = k then (k, v) else p)
  else m ++ [(k, v)]

/-- `del d[k]`. -/
def alDel (m : List (Int × Int)) (k : Int) : List (Int × Int) :=
  m.filter (fun p => p.1 ≠ k)

/-- Python dict equality (order-insensitive). -/
def dictEq (a b : List (Int × Int)) : Bool :=
  a.all (fun p => alGet b p.1 = some p.2) && b.all (fun p => alGet a p.1 = some p.2)

/-- Inner `while d.get(k+v):` merge loop of `map_compact` (`d.get` is truthy
only on a present, nonzero run length).  Fuel bounds the deletions. -/
def mergeRun : Nat → List (Int × Int) → Int → Int → List (Int × Int) × Int
  | 0, d, _, v => (d, v)
  | fuel + 1, d, k, v =>
      match alGet d (k + v) with
      | some v1 =>
          if v1 ≠ 0 then mergeRun fuel (alDel (alSet d k (v + v1)) (k + v)) k (v + v1)
          else (d, v)
      | none => (d, v)

/-- One `for k,v in sorted(...)` pass of `map_compact`, threading `d`. -/
def compactPass (items : List (Int × Int)) (d : List (Int × Int)) :
    List (Int × Int) :=
  items.foldl (fun d kv => (mergeRun (d.length + 1) d kv.1 kv.2).1) d

/-- The outer `while 1:` of `map_compact`, iterating passes to a fixed point
(with fuel; Python loops until the dict stops changing). -/
def mapCompactLoop : Nat → List (Int × Int) → List (Int × Int)
  | 0, m => m
  | fuel + 1, m =>
      let d := compactPass (m.mergeSort (fun a b => a.1 ≤ b.1)) m
      if dictEq m d then m else mapCompactLoop fuel d

/-- `FAT.map_compact`: no-op when the dirty flag is clear; otherwise
compacts `free_clusters_map` and clears the flag.  Only the map and the
flag are touched. -/
def map_compact (s : FATState) : FATState :=
  if s.free_clusters_flag = false then s
  else
    { s with
      free_clusters_map :=
        mapCompactLoop (s.free_clusters_map.length + 1) s.free_clusters_map
      free_clusters_flag := false }

/-- `FAT.findfree`: pop the most recently inserted free run, re-insert the
remainder past `count` clusters, debit `free_clusters`. -/
def findfree (s : FATState) (count : Int) : (Int × Int) × FATState :=
  match s.free_clusters_map.getLast? with
  | none => ((-1, -1), s)
  | some (i, n) =>
      let m := s.free_clusters_map.dropLast
      let m := if n - count > 0 then alSet m (i + count) (n - count) else m
      ((i, min n count),
        { s with free_clusters_map := m,
                 free_clusters := s.free_clusters - min n count })

/-- The `while count:` body of `mark_run` for FAT12:
`self[start] = (start+1, 0)[clear]` then advance (modelled for the
nonnegative counts the allocator produces). -/
def markLoop (clear : Bool) : Nat → FATState → Int → FATState
  | 0, s, _ => s
  | n + 1, s, start =>
      markLoop clear n
        (fatSet s start.toNat (if clear then 0 else (start + 1).toNat)) (start + 1)

/-- `FAT.mark_run` in its FAT12 branch. -/
def mark_run12 (s : FATState) (start count : Int) (clear : Bool) : FATState :=
  if count = 0 then s
  else if start < 2 ∨ start > (s.real_last : Int) then s
  else
    let s :=
      if clear then
        { s with free_clusters_flag := true,
                 free_clusters_map := alSet s.free_clusters_map start count }
      else s
    markLoop clear count.toNat s start

/-- The `while count:` loop of `FAT.alloc` (fuel-bounded; `last` starts
unbound, so Python raises if the loop never runs — modelled as `none`). -/
def allocLoop : Nat → FATState → List (Int × Int) → Int → Option (Int × Int) →
    Option (FATState × List (Int × Int) × Int)
  | 0, _, _, _, _ => none
  | fuel + 1, s, runs, count, last_run =>
      if count ≠ 0 then
        let last_run := if runs ≠ [] then runs.getLast? else last_run
        let in_ := findfree s count
        let i := in_.1.1
        let n := in_.1.2
        let s := mark_run12 in_.2 i n false
        let s := match last_run with
          | some (k, v) => fatSet s (k + v - 1).toNat i.toNat
          | none => s
        let runs := match last_run with
          | some (k, v) => if i = k + v then alSet runs k (n + v) else alSet runs i n
          | none => alSet runs i n
        allocLoop fuel s runs (count - n) (some (i, n))
      else
        match last_run with
        | some (i, n) =>
            let last := i + n - 1
            let s := fatSet s last.toNat s.last
            some ({ s with last_free_alloc := last.toNat }, runs, last)
        | none => none

/-- `FAT.alloc`: compact the free map, fail with `FATException` when fewer
than `count` clusters are free (nothing is allocated), else run the
allocation loop.  The error carries the object state at raise time. -/
def alloc (s : FATState) (runs : List (Int × Int)) (count : Int) :
    Except (String × FATState × List (Int × Int))
      (FATState × List (Int × Int) × Int) :=
  let s1 := map_compact s
  if s1.free_clusters < count then
    .error ("FATAL! Free clusters exhausted", s1, runs)
  else
    match allocLoop (count.toNat + 1) s1 runs count none with
    | some r => .ok r
    | none => .error ("model: allocation loop failed to terminate", s1, runs)

theorem map_compact_frame (s : FATState) :
    (map_compact s).data = s.data ∧ (map_compact s).decoded = s.decoded
    ∧ (map_compact s).free_clusters = s.free_clusters
    ∧ (map_compact s).real_last = s.real_last := by
  unfold map_compact
  split <;> exact ⟨rfl, rfl, rfl, rfl⟩

/-- C3: allocator failure semantics.  (a) `__getitem__` out of range returns
LAST and changes nothing; (b) `__setitem__` with an out-of-range index or a
value strictly between `real_last` and `reserved` changes nothing (neither
cache nor either FAT copy); (c) `alloc` with `count` greater than the free
cluster count raises `FATException` and allocates nothing: the stream, the
`decoded` cache, the free count and the caller's runs map are unchanged
(only `map_compact` has normalised the free-runs dictionary). -/
theorem c3_allocator_failure_semantics (s : FATState) (index : Nat)
    (runs : List (Int × Int)) (count : Int)
    (hidx : index < 2 ∨ s.real_last < index)
    (hcount : s.free_clusters < count) :
    fatGet s index = (s.last, s)
    ∧ (∀ v, fatSet s index v = s)
    ∧ (∀ i v, s.real_last < v → v < s.reserved → fatSet s i v = s)
    ∧ alloc s runs count
        = .error ("FATAL! Free clusters exhausted", map_compact s, runs)
    ∧ (map_compact s).data = s.data
    ∧ (map_compact s).decoded = s.decoded
    ∧ (map_compact s).free_clusters = s.free_clusters := by
  obtain ⟨hd, hdec, hfc, hrl⟩ := map_compact_frame s
  refine ⟨fatGet_out_of_range s index hidx, ?_, ?_, ?_, hd, hdec, hfc⟩
  · intro v
    exact fatSet_refuses s index v (by omega)
  · intro i v h1 h2
    exact fatSet_refuses s i v (by omega)
  · unfold alloc
    rw [if_pos (by rw [hfc]; exact hcount)]

/-- Witness for `c3_allocator_failure_semantics`: a fresh 16-cluster FAT12
table with no free clusters, index 1, allocation request of 1 cluster. -/
theorem c3_allocator_failure_semantics_witness :
    ((1 : Nat) < 2 ∨ (mkFAT12 (fun _ => 0) 0 16 0 []).real_last < 1)
    ∧ (mkFAT12 (fun _ => 0) 0 16 0 []).free_clusters < 1
    ∧ (fatGet (mkFAT12 (fun _ => 0) 0 16 0 []) 1
        = ((mkFAT12 (fun _ => 0) 0 16 0 []).last, mkFAT12 (fun _ => 0) 0 16 0 [])
      ∧ (∀ v, fatSet (mkFAT12 (fun _ => 0) 0 16 0 []) 1 v
          = mkFAT12 (fun _ => 0) 0 16 0 [])
      ∧ (∀ i v, (mkFAT12 (fun _ => 0) 0 16 0 []).real_last < v →
          v < (mkFAT12 (fun _ => 0) 0 16 0 []).reserved →
          fatSet (mkFAT12 (fun _ => 0) 0 16 0 []) i v
            = mkFAT12 (fun _ => 0) 0 16 0 [])
      ∧ alloc (mkFAT12 (fun _ => 0) 0 16 0 []) [] 1
          = .error ("FATAL! Free clusters exhausted",
              map_compact (mkFAT12 (fun _ => 0) 0 16 0 []), [])
      ∧ (map_compact (mkFAT12 (fun _ => 0) 0 16 0 [])).data
          = (mkFAT12 (fun _ => 0) 0 16 0 []).data
      ∧ (map_compact (mkFAT12 (fun _ => 0) 0 16 0 [])).decoded
          = (mkFAT12 (fun _ => 0) 0 16 0 []).decoded
      ∧ (map_compact (mkFAT12 (fun _ => 0) 0 16 0 [])).free_clusters
          = (mkFAT12 (fun _ => 0) 0 16 0 []).free_clusters) :=
  ⟨by decide, by decide,
    c3_allocator_failure_semantics (mkFAT12 (fun _ => 0) 0 16 0 []) 1 [] 1
      (by decide) (by decide)⟩

end FATtbl
